import Mathlib

/-!
Verification development for the remote-session terminal engine
(`SshConsole.tsx`): a stateful stream sanitizer (ANSI/VT escape stripping
plus carriage-return line assembly) and the session controller built on it.

Text is modelled as `List Nat` of UTF-16 code units (the inputs of interest
are surrogate-free, so each JavaScript string index corresponds to one
entry).  Each definition is a direct translation of the corresponding
function in the source file.
-/

namespace SshConsole

/-- Control-code test (`isControlCode` in the source):
0x00–0x08, 0x0B, 0x0C, 0x7F, and 0x0E–0x1F. -/
def isControlCode (code : Nat) : Bool :=
  if code ≤ 8 then true
  else if code = 11 ∨ code = 12 ∨ code = 127 then true
  else decide (14 ≤ code ∧ code ≤ 31)

def CSI_FINAL_MIN : Nat := 0x40
def CSI_FINAL_MAX : Nat := 0x7e
def CSI_PARAMETER_MIN : Nat := 0x30
def CSI_PARAMETER_MAX : Nat := 0x3f
def CSI_INTERMEDIATE_MIN : Nat := 0x20
def CSI_INTERMEDIATE_MAX : Nat := 0x2f

/-- `consumeCsiSequence` from the source, relativised: `input` is the part of
the data after the CSI introducer (`ESC [` counts 2, `0x9B` counts 1, given
by `acc`), the result is the total number of code units of the sequence. -/
def consumeCsiSequence : List Nat → Nat → Option Nat
  | [], _ => none
  | code :: rest, acc =>
    if CSI_FINAL_MIN ≤ code ∧ code ≤ CSI_FINAL_MAX then some (acc + 1)
    else if (CSI_PARAMETER_MIN ≤ code ∧ code ≤ CSI_PARAMETER_MAX) ∨
            (CSI_INTERMEDIATE_MIN ≤ code ∧ code ≤ CSI_INTERMEDIATE_MAX) then
      consumeCsiSequence rest (acc + 1)
    else some (acc + 1)

/-- `consumeOscSequence` from the source: `input` starts after `ESC ]`
(`acc` = 2); terminated by BEL, `ESC \`, or single-byte ST 0x9C. -/
def consumeOscSequence : List Nat → Nat → Option Nat
  | [], _ => none
  | code :: rest, acc =>
    if code = 0x07 then some (acc + 1)
    else if code = 0x1b ∧ rest.head? = some 0x5c then some (acc + 2)
    else if code = 0x9c then some (acc + 1)
    else consumeOscSequence rest (acc + 1)

/-- `consumeStTerminatedSequence` from the source (DCS/PM/APC bodies). -/
def consumeStTerminatedSequence : List Nat → Nat → Option Nat
  | [], _ => none
  | code :: rest, acc =>
    if code = 0x1b ∧ rest.head? = some 0x5c then some (acc + 2)
    else if code = 0x9c then some (acc + 1)
    else consumeStTerminatedSequence rest (acc + 1)

/-- `consumeSimpleEscape` from the source: scans from the byte after ESC
(`acc` = 1). -/
def consumeSimpleEscape : List Nat → Nat → Option Nat
  | [], _ => none
  | code :: rest, acc =>
    if 0x30 ≤ code ∧ code ≤ 0x7e then some (acc + 1)
    else if code < 0x20 ∨ code > 0x2f then some (acc + 1)
    else consumeSimpleEscape rest (acc + 1)

/-- Dispatch on the byte after a leading ESC (`next` in the source's
`consumeEscapeSequence`); `input` here is the data after that ESC, and the
`undefined` case (ESC at end of data) yields `none`. -/
def consumeEscapeTail : List Nat → Option Nat
  | [] => none
  | next :: rest2 =>
    if next = 0x5b then consumeCsiSequence rest2 2
    else if next = 0x5d then consumeOscSequence rest2 2
    else if next = 0x50 ∨ next = 0x5e ∨ next = 0x5f ∨ next = 0x58 then
      consumeStTerminatedSequence rest2 2
    else consumeSimpleEscape (next :: rest2) 1

/-- `consumeEscapeSequence` from the source: `input` begins at the escape
character itself. -/
def consumeEscapeSequence : List Nat → Option Nat
  | [] => some 1
  | first :: rest =>
    if first = 0x9b then consumeCsiSequence rest 1
    else if first ≠ 0x1b then some 1
    else consumeEscapeTail rest

theorem consumeCsiSequence_pos {l : List Nat} {a n : Nat}
    (h : consumeCsiSequence l a = some n) : 1 ≤ n := by
  induction l generalizing a with
  | nil => simp [consumeCsiSequence] at h
  | cons c rest ih =>
    simp only [consumeCsiSequence] at h
    split at h
    · simp at h; omega
    · split at h
      · exact ih h
      · simp at h; omega

theorem consumeOscSequence_pos {l : List Nat} {a n : Nat}
    (h : consumeOscSequence l a = some n) : 1 ≤ n := by
  induction l generalizing a with
  | nil => simp [consumeOscSequence] at h
  | cons c rest ih =>
    simp only [consumeOscSequence] at h
    split at h
    · simp at h; omega
    · split at h
      · simp at h; omega
      · split at h
        · simp at h; omega
        · exact ih h

theorem consumeStTerminatedSequence_pos {l : List Nat} {a n : Nat}
    (h : consumeStTerminatedSequence l a = some n) : 1 ≤ n := by
  induction l generalizing a with
  | nil => simp [consumeStTerminatedSequence] at h
  | cons c rest ih =>
    simp only [consumeStTerminatedSequence] at h
    split at h
    · simp at h; omega
    · split at h
      · simp at h; omega
      · exact ih h

theorem consumeSimpleEscape_pos {l : List Nat} {a n : Nat}
    (h : consumeSimpleEscape l a = some n) : 1 ≤ n := by
  induction l generalizing a with
  | nil => simp [consumeSimpleEscape] at h
  | cons c rest ih =>
    simp only [consumeSimpleEscape] at h
    split at h
    · simp at h; omega
    · split at h
      · simp at h; omega
      · exact ih h

theorem consumeEscapeTail_pos {l : List Nat} {n : Nat}
    (h : consumeEscapeTail l = some n) : 1 ≤ n := by
  cases l with
  | nil => simp [consumeEscapeTail] at h
  | cons next rest2 =>
    simp only [consumeEscapeTail] at h
    split at h
    · exact consumeCsiSequence_pos h
    · split at h
      · exact consumeOscSequence_pos h
      · split at h
        · exact consumeStTerminatedSequence_pos h
        · exact consumeSimpleEscape_pos h

theorem consumeEscapeSequence_pos {l : List Nat} {n : Nat}
    (h : consumeEscapeSequence l = some n) : 1 ≤ n := by
  cases l with
  | nil => simp [consumeEscapeSequence] at h; omega
  | cons first rest =>
    simp only [consumeEscapeSequence] at h
    split at h
    · exact consumeCsiSequence_pos h
    · split at h
      · simp at h; omega
      · exact consumeEscapeTail_pos h

theorem consumeCsiSequence_le {l : List Nat} {a n : Nat}
    (h : consumeCsiSequence l a = some n) : n ≤ a + l.length := by
  induction l generalizing a with
  | nil => simp [consumeCsiSequence] at h
  | cons c rest ih =>
    simp only [consumeCsiSequence] at h
    split at h
    · simp at h; simp; omega
    · split at h
      · have := ih h; simp at this ⊢; omega
      · simp at h; simp; omega

theorem consumeOscSequence_le {l : List Nat} {a n : Nat}
    (h : consumeOscSequence l a = some n) : n ≤ a + l.length := by
  induction l generalizing a with
  | nil => simp [consumeOscSequence] at h
  | cons c rest ih =>
    simp only [consumeOscSequence] at h
    split at h
    · simp at h; simp; omega
    · split at h
      · rename_i h27
        cases rest with
        | nil => simp at h27
        | cons r rs => simp at h ⊢; omega
      · split at h
        · simp at h; simp; omega
        · have := ih h; simp at this ⊢; omega

theorem consumeStTerminatedSequence_le {l : List Nat} {a n : Nat}
    (h : consumeStTerminatedSequence l a = some n) : n ≤ a + l.length := by
  induction l generalizing a with
  | nil => simp [consumeStTerminatedSequence] at h
  | cons c rest ih =>
    simp only [consumeStTerminatedSequence] at h
    split at h
    · rename_i h27
      cases rest with
      | nil => simp at h27
      | cons r rs => simp at h ⊢; omega
    · split at h
      · simp at h; simp; omega
      · have := ih h; simp at this ⊢; omega

theorem consumeSimpleEscape_le {l : List Nat} {a n : Nat}
    (h : consumeSimpleEscape l a = some n) : n ≤ a + l.length := by
  induction l generalizing a with
  | nil => simp [consumeSimpleEscape] at h
  | cons c rest ih =>
    simp only [consumeSimpleEscape] at h
    split at h
    · simp at h; simp; omega
    · split at h
      · simp at h; simp; omega
      · have := ih h; simp at this ⊢; omega

theorem consumeEscapeTail_le {l : List Nat} {n : Nat}
    (h : consumeEscapeTail l = some n) : n ≤ 1 + l.length := by
  cases l with
  | nil => simp [consumeEscapeTail] at h
  | cons next rest2 =>
    simp only [consumeEscapeTail] at h
    split at h
    · have := consumeCsiSequence_le h; simp at this ⊢; omega
    · split at h
      · have := consumeOscSequence_le h; simp at this ⊢; omega
      · split at h
        · have := consumeStTerminatedSequence_le h; simp at this ⊢; omega
        · have := consumeSimpleEscape_le h; simp at this ⊢; omega

theorem consumeEscapeSequence_le {l : List Nat} {n : Nat}
    (hl : l ≠ []) (h : consumeEscapeSequence l = some n) : n ≤ l.length := by
  cases l with
  | nil => exact absurd rfl hl
  | cons first rest =>
    simp only [consumeEscapeSequence] at h
    split at h
    · have := consumeCsiSequence_le h; simp at this ⊢; omega
    · split at h
      · simp at h; simp; omega
      · have := consumeEscapeTail_le h; simp at this ⊢; omega

/-! Scanning is stable under appending more data: if a terminator was found
within the available data, appending further input does not change the
consumed count. -/

theorem consumeCsiSequence_append {l v : List Nat} {a n : Nat}
    (h : consumeCsiSequence l a = some n) :
    consumeCsiSequence (l ++ v) a = some n := by
  induction l generalizing a with
  | nil => simp [consumeCsiSequence] at h
  | cons c rest ih =>
    rw [List.cons_append]
    rw [consumeCsiSequence] at h ⊢
    split at h
    · rename_i h1
      rw [if_pos h1]
      exact h
    · split at h
      · rename_i h1 h2
        rw [if_neg h1, if_pos h2]
        exact ih h
      · rename_i h1 h2
        rw [if_neg h1, if_neg h2]
        exact h

theorem consumeOscSequence_append {l v : List Nat} {a n : Nat}
    (h : consumeOscSequence l a = some n) :
    consumeOscSequence (l ++ v) a = some n := by
  induction l generalizing a with
  | nil => simp [consumeOscSequence] at h
  | cons c rest ih =>
    rw [List.cons_append]
    by_cases h7 : c = 7
    · rw [consumeOscSequence, if_pos h7] at h ⊢
      exact h
    · by_cases hesc : c = 27 ∧ rest.head? = some 92
      · have hv : (rest ++ v).head? = some 92 := by
          cases rest with
          | nil => simp at hesc
          | cons r rs => simpa using hesc.2
        rw [consumeOscSequence, if_neg h7, if_pos hesc] at h
        rw [consumeOscSequence, if_neg h7, if_pos ⟨hesc.1, hv⟩]
        exact h
      · have hv : ¬ (c = 27 ∧ (rest ++ v).head? = some 92) := by
          intro hcon
          cases rest with
          | nil =>
            -- then the scan in `l` ran off the end: contradiction with `h`
            by_cases h156 : c = 156
            · exact absurd (hcon.1 ▸ h156) (by norm_num)
            · simp [consumeOscSequence, h7, hesc, h156] at h
          | cons r rs => exact hesc ⟨hcon.1, by simpa using hcon.2⟩
        by_cases h156 : c = 156
        · rw [consumeOscSequence, if_neg h7, if_neg hesc, if_pos h156] at h
          rw [consumeOscSequence, if_neg h7, if_neg hv, if_pos h156]
          exact h
        · rw [consumeOscSequence, if_neg h7, if_neg hesc, if_neg h156] at h
          rw [consumeOscSequence, if_neg h7, if_neg hv, if_neg h156]
          exact ih h

theorem consumeStTerminatedSequence_append {l v : List Nat} {a n : Nat}
    (h : consumeStTerminatedSequence l a = some n) :
    consumeStTerminatedSequence (l ++ v) a = some n := by
  induction l generalizing a with
  | nil => simp [consumeStTerminatedSequence] at h
  | cons c rest ih =>
    rw [List.cons_append]
    by_cases hesc : c = 27 ∧ rest.head? = some 92
    · have hv : (rest ++ v).head? = some 92 := by
        cases rest with
        | nil => simp at hesc
        | cons r rs => simpa using hesc.2
      rw [consumeStTerminatedSequence, if_pos hesc] at h
      rw [consumeStTerminatedSequence, if_pos ⟨hesc.1, hv⟩]
      exact h
    · have hv : ¬ (c = 27 ∧ (rest ++ v).head? = some 92) := by
        intro hcon
        cases rest with
        | nil =>
          by_cases h156 : c = 156
          · exact absurd (hcon.1 ▸ h156) (by norm_num)
          · simp [consumeStTerminatedSequence, hesc, h156] at h
        | cons r rs => exact hesc ⟨hcon.1, by simpa using hcon.2⟩
      by_cases h156 : c = 156
      · rw [consumeStTerminatedSequence, if_neg hesc, if_pos h156] at h
        rw [consumeStTerminatedSequence, if_neg hv, if_pos h156]
        exact h
      · rw [consumeStTerminatedSequence, if_neg hesc, if_neg h156] at h
        rw [consumeStTerminatedSequence, if_neg hv, if_neg h156]
        exact ih h

theorem consumeSimpleEscape_append {l v : List Nat} {a n : Nat}
    (h : consumeSimpleEscape l a = some n) :
    consumeSimpleEscape (l ++ v) a = some n := by
  induction l generalizing a with
  | nil => simp [consumeSimpleEscape] at h
  | cons c rest ih =>
    rw [List.cons_append]
    rw [consumeSimpleEscape] at h ⊢
    split at h
    · rename_i h1
      rw [if_pos h1]
      exact h
    · split at h
      · rename_i h1 h2
        rw [if_neg h1, if_pos h2]
        exact h
      · rename_i h1 h2
        rw [if_neg h1, if_neg h2]
        exact ih h

theorem consumeEscapeTail_append {l v : List Nat} {n : Nat}
    (h : consumeEscapeTail l = some n) :
    consumeEscapeTail (l ++ v) = some n := by
  cases l with
  | nil => simp [consumeEscapeTail] at h
  | cons next rest2 =>
    rw [List.cons_append]
    rw [consumeEscapeTail] at h ⊢
    split at h
    · rename_i h1
      rw [if_pos h1]
      exact consumeCsiSequence_append h
    · split at h
      · rename_i h1 h2
        rw [if_neg h1, if_pos h2]
        exact consumeOscSequence_append h
      · split at h
        · rename_i h1 h2 h3
          rw [if_neg h1, if_neg h2, if_pos h3]
          exact consumeStTerminatedSequence_append h
        · rename_i h1 h2 h3
          rw [if_neg h1, if_neg h2, if_neg h3]
          have := consumeSimpleEscape_append (v := v) h
          rwa [List.cons_append] at this

theorem consumeEscapeSequence_append {l v : List Nat} {n : Nat}
    (hl : l ≠ []) (h : consumeEscapeSequence l = some n) :
    consumeEscapeSequence (l ++ v) = some n := by
  cases l with
  | nil => exact absurd rfl hl
  | cons first rest =>
    rw [List.cons_append]
    rw [consumeEscapeSequence] at h ⊢
    split at h
    · rename_i h1
      rw [if_pos h1]
      exact consumeCsiSequence_append h
    · split at h
      · rename_i h1 h2
        rw [if_neg h1, if_pos h2]
        exact h
      · rename_i h1 h2
        rw [if_neg h1, if_neg h2]
        exact consumeEscapeTail_append h

/-- Main scanning loop of `stripAnsiAndControls`, fuelled so that it is
structurally recursive (the fuel bounds the number of loop iterations; each
iteration consumes at least one code unit, so `data.length` is enough).
On escape introducers it consumes a whole recognised sequence, on an
unterminated sequence it stops and reports the remainder, bare control
codes are dropped, and all other characters are kept. -/
def stripLoopF : Nat → List Nat → List Nat × List Nat
  | _, [] => ([], [])
  | 0, data => ([], data)
  | fuel + 1, ch :: rest =>
    if ch = 0x1b ∨ ch = 0x9b then
      match consumeEscapeSequence (ch :: rest) with
      | none => ([], ch :: rest)
      | some n => stripLoopF fuel ((ch :: rest).drop n)
    else if isControlCode ch then stripLoopF fuel rest
    else
      (ch :: (stripLoopF fuel rest).1, (stripLoopF fuel rest).2)

/-- The scanning loop of `stripAnsiAndControls`, at its natural fuel. -/
def stripLoop (data : List Nat) : List Nat × List Nat :=
  stripLoopF data.length data

theorem stripLoopF_mono : ∀ (f : Nat) {g : Nat} {data : List Nat},
    data.length ≤ f → data.length ≤ g → stripLoopF f data = stripLoopF g data := by
  intro f
  induction f with
  | zero =>
    intro g data hf hg
    have hnil : data = [] := List.length_eq_zero.mp (Nat.le_zero.mp hf)
    subst hnil
    cases g <;> rfl
  | succ f ih =>
    intro g data hf hg
    cases data with
    | nil => cases g <;> rfl
    | cons ch rest =>
      cases g with
      | zero => simp at hg
      | succ g =>
        simp only [List.length_cons] at hf hg
        rw [stripLoopF, stripLoopF]
        by_cases hesc : ch = 0x1b ∨ ch = 0x9b
        · rw [if_pos hesc, if_pos hesc]
          cases hcons : consumeEscapeSequence (ch :: rest) with
          | none => rfl
          | some n =>
            have hn : 1 ≤ n := consumeEscapeSequence_pos hcons
            have hlen : ((ch :: rest).drop n).length ≤ rest.length := by
              simp [List.length_drop]
              omega
            exact ih (Nat.le_trans hlen (by omega)) (Nat.le_trans hlen (by omega))
        · rw [if_neg hesc, if_neg hesc]
          by_cases hctl : isControlCode ch = true
          · rw [if_pos hctl, if_pos hctl]
            exact ih (by omega) (by omega)
          · rw [if_neg hctl, if_neg hctl]
            rw [ih (g := g) (by omega) (by omega)]

/-- One-step unfolding of `stripLoop` on a cons cell. -/
theorem stripLoop_cons (ch : Nat) (rest : List Nat) :
    stripLoop (ch :: rest) =
      if ch = 0x1b ∨ ch = 0x9b then
        match consumeEscapeSequence (ch :: rest) with
        | none => ([], ch :: rest)
        | some n => stripLoop ((ch :: rest).drop n)
      else if isControlCode ch then stripLoop rest
      else
        (ch :: (stripLoop rest).1, (stripLoop rest).2) := by
  show stripLoopF (rest.length + 1) (ch :: rest) = _
  rw [stripLoopF]
  by_cases hesc : ch = 0x1b ∨ ch = 0x9b
  · rw [if_pos hesc, if_pos hesc]
    cases hcons : consumeEscapeSequence (ch :: rest) with
    | none => rfl
    | some n =>
      have hn : 1 ≤ n := consumeEscapeSequence_pos hcons
      exact stripLoopF_mono _ (by simp [List.length_drop]; omega) (Nat.le_refl _)
  · rw [if_neg hesc, if_neg hesc]
    by_cases hctl : isControlCode ch = true
    · rw [if_pos hctl, if_pos hctl]
      rfl
    · rw [if_neg hctl, if_neg hctl]
      rfl

theorem stripLoop_nil : stripLoop [] = ([], []) := rfl

/-- Cross-chunk sanitizer state (`TerminalSanitizerState` in the source). -/
structure TermSanState where
  pending : List Nat
  currentLine : List Nat
  emittedLength : Nat
  deriving Repr, DecidableEq

/-- `stripAnsiAndControls` from the source: concatenates the pending bytes
with the chunk and scans; returns the clean text and the unterminated
remainder. -/
def stripAnsiAndControls (chunk pending : List Nat) : List Nat × List Nat :=
  if pending = [] ∧ chunk = [] then ([], [])
  else stripLoop (pending ++ chunk)

theorem stripAnsiAndControls_eq (chunk pending : List Nat) :
    stripAnsiAndControls chunk pending = stripLoop (pending ++ chunk) := by
  rw [stripAnsiAndControls]
  split
  · rename_i hb
    rw [hb.1, hb.2]
    rfl
  · rfl

/-- `flushPartialLine` from the source: emit the not-yet-emitted suffix of
the current line and mark the whole line as emitted. -/
def flushPartial (result currentLine : List Nat) (emittedLength : Nat) :
    List Nat × Nat :=
  (result ++ currentLine.drop emittedLength, currentLine.length)

def endsWithLF (l : List Nat) : Bool := l.getLast? = some 10

/-- The character loop of `applyCarriageControl` (everything except the
final `flushPartialLine()` call): processes `value`, accumulating output in
`result` and threading `currentLine`/`emittedLength`. -/
def accRunF : Nat → List Nat → List Nat → List Nat → Nat →
    List Nat × List Nat × Nat
  | _, [], result, line, e => (result, line, e)
  | 0, _, result, line, e => (result, line, e)
  | fuel + 1, ch :: rest, result, line, e =>
    if ch = 13 then
      -- `value[index+1] === "\n"` is the lookahead `rest.head? = some 10`
      if rest.head? = some 10 then
        accRunF fuel rest.tail ((flushPartial result line e).1 ++ [10]) [] 0
      else
        let r1 := (flushPartial result line e).1
        let r2 :=
          if (0 < e ∨ line ≠ []) ∧ ¬ (endsWithLF r1 = true) then r1 ++ [10]
          else r1
        accRunF fuel rest r2 [] 0
    else if ch = 10 then
      accRunF fuel rest ((flushPartial result line e).1 ++ [10]) [] 0
    else
      accRunF fuel rest result (line ++ [ch]) e

/-- The character loop of `applyCarriageControl` at its natural fuel
(each iteration consumes at least one code unit). -/
def accRun (value result line : List Nat) (e : Nat) :
    List Nat × List Nat × Nat :=
  accRunF value.length value result line e

theorem accRunF_mono : ∀ (f : Nat) {g : Nat} {v r l : List Nat} {e : Nat},
    v.length ≤ f → v.length ≤ g → accRunF f v r l e = accRunF g v r l e := by
  intro f
  induction f with
  | zero =>
    intro g v r l e hf hg
    have hnil : v = [] := List.length_eq_zero.mp (Nat.le_zero.mp hf)
    subst hnil
    cases g <;> rfl
  | succ f ih =>
    intro g v r l e hf hg
    cases v with
    | nil => cases g <;> rfl
    | cons ch rest =>
      cases g with
      | zero => simp at hg
      | succ g =>
        simp only [List.length_cons] at hf hg
        rw [accRunF, accRunF]
        by_cases h13 : ch = 13
        · rw [if_pos h13, if_pos h13]
          by_cases hlf : rest.head? = some 10
          · rw [if_pos hlf, if_pos hlf]
            have : rest.tail.length ≤ rest.length := by
              simp [List.length_tail]
            exact ih (by omega) (by omega)
          · rw [if_neg hlf, if_neg hlf]
            exact ih (by omega) (by omega)
        · rw [if_neg h13, if_neg h13]
          by_cases h10 : ch = 10
          · rw [if_pos h10, if_pos h10]
            exact ih (by omega) (by omega)
          · rw [if_neg h10, if_neg h10]
            exact ih (by omega) (by omega)

theorem accRun_nil (r l : List Nat) (e : Nat) : accRun [] r l e = (r, l, e) :=
  rfl

/-- One-step unfolding of `accRun` on a cons cell. -/
theorem accRun_cons (ch : Nat) (rest r l : List Nat) (e : Nat) :
    accRun (ch :: rest) r l e =
      if ch = 13 then
        if rest.head? = some 10 then
          accRun rest.tail ((flushPartial r l e).1 ++ [10]) [] 0
        else
          let r1 := (flushPartial r l e).1
          let r2 :=
            if (0 < e ∨ l ≠ []) ∧ ¬ (endsWithLF r1 = true) then r1 ++ [10]
            else r1
          accRun rest r2 [] 0
      else if ch = 10 then
        accRun rest ((flushPartial r l e).1 ++ [10]) [] 0
      else
        accRun rest r (l ++ [ch]) e := by
  show accRunF (rest.length + 1) (ch :: rest) r l e = _
  rw [accRunF]
  by_cases h13 : ch = 13
  · rw [if_pos h13, if_pos h13]
    by_cases hlf : rest.head? = some 10
    · rw [if_pos hlf, if_pos hlf]
      exact accRunF_mono _ (by simp [List.length_tail]) (Nat.le_refl _)
    · rw [if_neg hlf, if_neg hlf]
      rfl
  · rw [if_neg h13, if_neg h13]
    by_cases h10 : ch = 10
    · rw [if_pos h10, if_pos h10]
      rfl
    · rw [if_neg h10, if_neg h10]
      rfl

/-- `applyCarriageControl` from the source: early-returns on empty input
(leaving the state untouched), otherwise runs the loop and then the final
`flushPartialLine`, storing the updated line state. -/
def applyCarriageControl (value : List Nat) (st : TermSanState) :
    List Nat × TermSanState :=
  if value = [] then ([], st)
  else
    let (result, line, e) := accRun value [] st.currentLine st.emittedLength
    let (result2, e2) := flushPartial result line e
    (result2, { st with currentLine := line, emittedLength := e2 })

/-- `sanitizeChunk` from the source. -/
def sanitizeChunk (raw : List Nat) (st : TermSanState) :
    List Nat × TermSanState :=
  let (clean, remainder) := stripAnsiAndControls raw st.pending
  applyCarriageControl clean { st with pending := remainder }

/-- `prepareDisplayContent` from the source.  `none` plays the role of both
`undefined` input and a `null` result; an empty string is falsy in the
`if (!raw)` guard.  The final test is `/\r?\n/.test(raw)`, which holds
exactly when the raw chunk contains a line feed. -/
def prepareDisplayContent (raw : Option (List Nat)) (st : TermSanState) :
    Option (List Nat) × TermSanState :=
  match raw with
  | none => (none, st)
  | some r =>
    if r = [] then (none, st)
    else
      if (sanitizeChunk r st).1 ≠ [] then
        (some (sanitizeChunk r st).1, (sanitizeChunk r st).2)
      else if 10 ∈ r then (some [10], (sanitizeChunk r st).2)
      else (none, (sanitizeChunk r st).2)

/-- A freshly initialised sanitizer state. -/
def freshSan : TermSanState := ⟨[], [], 0⟩

-- Sanity checks against the spec's concrete scenario:
-- "\u001b[31mHello\u001b[0m\r\nWorld" sanitizes to "Hello\nWorld".
example :
    (sanitizeChunk
      ([27, 91, 51, 49, 109] ++ [72, 101, 108, 108, 111] ++
        [27, 91, 48, 109] ++ [13, 10] ++ [87, 111, 114, 108, 100])
      freshSan).1 =
      [72, 101, 108, 108, 111] ++ [10] ++ [87, 111, 114, 108, 100] := by
  decide

-- An unterminated CSI split across two chunks resolves as if delivered whole.
example :
    (let (r1, st1) := sanitizeChunk [27, 91, 49] freshSan
     let (r2, _) := sanitizeChunk [59, 50, 109, 97] st1
     r1 ++ r2) = [97] := by
  decide

/-! ### Chunk-boundary compositionality of the carriage-control loop -/

/-- Strong induction on the length of a list. -/
theorem list_length_strong_ind {P : List Nat → Prop}
    (h : ∀ v : List Nat, (∀ w : List Nat, w.length < v.length → P w) → P v) :
    ∀ v, P v := by
  intro v
  have : ∀ n (w : List Nat), w.length ≤ n → P w := by
    intro n
    induction n with
    | zero =>
      intro w hw
      exact h w (by omega)
    | succ n ih =>
      intro w hw
      exact h w (fun u hu => ih u (by omega))
  exact this v.length v (Nat.le_refl _)

/-- The loop never leaves a positive `emittedLength` when it started at 0:
`emittedLength` is only assigned 0 by the line-break branches and is
otherwise unchanged. -/
theorem accRun_e_zero : ∀ (v R l : List Nat), (accRun v R l 0).2.2 = 0 := by
  intro v
  induction v using list_length_strong_ind with
  | h v ih =>
    cases v with
    | nil => intro R l; rfl
    | cons ch rest =>
      intro R l
      rw [accRun_cons]
      by_cases h13 : ch = 13
      · rw [if_pos h13]
        by_cases hlf : rest.head? = some 10
        · rw [if_pos hlf]
          exact ih rest.tail (by simp [List.length_tail]; omega) _ _
        · rw [if_neg hlf]
          exact ih rest (by simp) _ _
      · rw [if_neg h13]
        by_cases h10 : ch = 10
        · rw [if_pos h10]
          exact ih rest (by simp) _ _
        · rw [if_neg h10]
          exact ih rest (by simp) _ _

/-- Line contents never acquire a line feed: only non-CR/LF characters are
appended to `currentLine`. -/
theorem accRun_line_no_lf : ∀ (v R l : List Nat) (e : Nat), 10 ∉ l →
    10 ∉ (accRun v R l e).2.1 := by
  intro v
  induction v using list_length_strong_ind with
  | h v ih =>
    cases v with
    | nil => intro R l e hl; exact hl
    | cons ch rest =>
      intro R l e hl
      rw [accRun_cons]
      by_cases h13 : ch = 13
      · rw [if_pos h13]
        by_cases hlf : rest.head? = some 10
        · rw [if_pos hlf]
          exact ih rest.tail (by simp [List.length_tail]; omega) _ _ _ (by simp)
        · rw [if_neg hlf]
          exact ih rest (by simp) _ _ _ (by simp)
      · rw [if_neg h13]
        by_cases h10 : ch = 10
        · rw [if_pos h10]
          exact ih rest (by simp) _ _ _ (by simp)
        · rw [if_neg h10]
          refine ih rest (by simp) _ _ _ ?_
          intro hmem
          rcases List.mem_append.mp hmem with hmem | hmem
          · exact hl hmem
          · simp at hmem
            exact h10 hmem.symm

/-- Splitting the processed text at a point that does not separate a CR from
an immediately following LF splits the loop run. -/
theorem accRun_append : ∀ (u v R l : List Nat) (e : Nat),
    ¬ (u.getLast? = some 13 ∧ v.head? = some 10) →
    accRun (u ++ v) R l e =
      (accRun v (accRun u R l e).1 (accRun u R l e).2.1 (accRun u R l e).2.2) := by
  intro u
  induction u using list_length_strong_ind with
  | h u ih =>
    cases u with
    | nil => intro v R l e _; rfl
    | cons ch rest =>
      intro v R l e hbd
      rw [List.cons_append, accRun_cons, accRun_cons ch rest]
      by_cases h13 : ch = 13
      · rw [if_pos h13, if_pos h13]
        cases rest with
        | nil =>
          -- `u = [13]`: the boundary condition rules out `v` starting with LF
          have hv : v.head? ≠ some 10 := by
            intro hcon
            exact hbd ⟨by simp [h13], hcon⟩
          rw [List.nil_append, if_neg hv]
          rw [if_neg (show ¬ (([] : List Nat).head? = some 10) by simp)]
          rfl
        | cons r rs =>
          have hhead : ((r :: rs) ++ v).head? = some r := by simp
          by_cases hr : r = 10
          · rw [if_pos (by simp [hhead, hr]), if_pos (by simp [hr])]
            have htail : ((r :: rs) ++ v).tail = rs ++ v := by simp
            rw [htail]
            simp only [List.tail_cons]
            refine ih rs (by simp; omega) v _ _ _ ?_
            intro hcon
            apply hbd
            refine ⟨?_, hcon.2⟩
            cases rs with
            | nil => exact absurd hcon.1 (by simp)
            | cons a as => simpa using hcon.1
          · rw [if_neg (by simp [hhead, hr]), if_neg (by simp [hr])]
            refine ih (r :: rs) (by simp) v _ _ _ ?_
            intro hcon
            apply hbd
            exact ⟨by simpa using hcon.1, hcon.2⟩
      · rw [if_neg h13, if_neg h13]
        have hlast : rest ≠ [] → (ch :: rest).getLast? = rest.getLast? := by
          intro hne
          cases rest with
          | nil => exact absurd rfl hne
          | cons a as => simp [List.getLast?_cons_cons]
        by_cases h10 : ch = 10
        · rw [if_pos h10, if_pos h10]
          refine ih rest (by simp) v _ _ _ ?_
          intro hcon
          apply hbd
          cases rest with
          | nil => exact absurd hcon.1 (by simp)
          | cons a as => exact ⟨by rw [hlast (by simp)]; exact hcon.1, hcon.2⟩
        · rw [if_neg h10, if_neg h10]
          refine ih rest (by simp) v _ _ _ ?_
          intro hcon
          apply hbd
          cases rest with
          | nil => exact absurd hcon.1 (by simp)
          | cons a as => exact ⟨by rw [hlast (by simp)]; exact hcon.1, hcon.2⟩

theorem endsWithLF_concat (X : List Nat) (c : Nat) :
    endsWithLF (X ++ [c]) = decide (c = 10) := by
  simp [endsWithLF, List.getLast?_concat]

/-- Two loop runs over the same text with the same line state, whose
accumulated results agree on whether they end in a line feed (or whose line
state is empty-and-unflushed, in which case the first decision point cannot
consult that bit), emit the same characters and finish in the same line
state. -/
theorem flushPartial_fst (R l : List Nat) (e : Nat) :
    (flushPartial R l e).1 = R ++ l.drop e := rfl

/-- Two loop runs over the same text with the same line state, whose
accumulated results agree on whether they end in a line feed (or whose line
state is empty-and-unflushed, in which case the first decision point cannot
consult that bit), emit the same characters and finish in the same line
state. -/
theorem accRun_acc_congr : ∀ (v A B l : List Nat) (e : Nat),
    e ≤ l.length → 10 ∉ l.drop e →
    (endsWithLF (A ++ l.drop e) = endsWithLF (B ++ l.drop e) ∨
      (l = [] ∧ e = 0)) →
    ∃ T l' e', accRun v A l e = (A ++ T, l', e') ∧
      accRun v B l e = (B ++ T, l', e') := by
  intro v
  induction v using list_length_strong_ind with
  | h v ih =>
    cases v with
    | nil =>
      intro A B l e _ _ _
      exact ⟨[], l, e, by simp [accRun_nil], by simp [accRun_nil]⟩
    | cons ch rest =>
      intro A B l e he h10 hends
      rw [accRun_cons, accRun_cons]
      by_cases h13 : ch = 13
      · rw [if_pos h13, if_pos h13]
        by_cases hlf : rest.head? = some 10
        · rw [if_pos hlf, if_pos hlf]
          simp only [flushPartial_fst]
          obtain ⟨T, l', e', hA, hB⟩ :=
            ih rest.tail (by simp [List.length_tail]; omega)
              (A ++ l.drop e ++ [10]) (B ++ l.drop e ++ [10]) [] 0
              (by simp) (by simp)
              (Or.inl (by simp only [List.drop_nil, List.append_nil, endsWithLF_concat]))
          exact ⟨l.drop e ++ [10] ++ T, l', e',
            by simpa [List.append_assoc] using hA,
            by simpa [List.append_assoc] using hB⟩
        · rw [if_neg hlf, if_neg hlf]
          simp only [flushPartial_fst]
          by_cases hhad : 0 < e ∨ l ≠ []
          · have hEE : endsWithLF (A ++ l.drop e) = endsWithLF (B ++ l.drop e) := by
              rcases hends with hends | ⟨hl, he0⟩
              · exact hends
              · subst hl
                rcases hhad with hpos | hne
                · omega
                · exact absurd rfl hne
            by_cases hE : endsWithLF (A ++ l.drop e) = true
            · rw [if_neg (by rw [hE]; simp), if_neg (by rw [← hEE, hE]; simp)]
              obtain ⟨T, l', e', hA, hB⟩ :=
                ih rest (by simp) (A ++ l.drop e) (B ++ l.drop e) [] 0
                  (by simp) (by simp)
                  (Or.inl (by simpa using hEE))
              exact ⟨l.drop e ++ T, l', e',
                by simpa [List.append_assoc] using hA,
                by simpa [List.append_assoc] using hB⟩
            · rw [if_pos ⟨hhad, hE⟩, if_pos ⟨hhad, by rw [← hEE]; exact hE⟩]
              obtain ⟨T, l', e', hA, hB⟩ :=
                ih rest (by simp)
                  (A ++ l.drop e ++ [10]) (B ++ l.drop e ++ [10]) [] 0
                  (by simp) (by simp)
                  (Or.inl (by simp only [List.drop_nil, List.append_nil, endsWithLF_concat]))
              exact ⟨l.drop e ++ [10] ++ T, l', e',
                by simpa [List.append_assoc] using hA,
                by simpa [List.append_assoc] using hB⟩
          · rw [if_neg (fun hc => hhad hc.1), if_neg (fun hc => hhad hc.1)]
            obtain ⟨T, l', e', hA, hB⟩ :=
              ih rest (by simp) (A ++ l.drop e) (B ++ l.drop e) [] 0
                (by simp) (by simp) (Or.inr ⟨rfl, rfl⟩)
            exact ⟨l.drop e ++ T, l', e',
              by simpa [List.append_assoc] using hA,
              by simpa [List.append_assoc] using hB⟩
      · rw [if_neg h13, if_neg h13]
        by_cases hch10 : ch = 10
        · rw [if_pos hch10, if_pos hch10]
          simp only [flushPartial_fst]
          obtain ⟨T, l', e', hA, hB⟩ :=
            ih rest (by simp)
              (A ++ l.drop e ++ [10]) (B ++ l.drop e ++ [10]) [] 0
              (by simp) (by simp)
              (Or.inl (by simp only [List.drop_nil, List.append_nil, endsWithLF_concat]))
          exact ⟨l.drop e ++ [10] ++ T, l', e',
            by simpa [List.append_assoc] using hA,
            by simpa [List.append_assoc] using hB⟩
        · rw [if_neg hch10, if_neg hch10]
          have hdrop : (l ++ [ch]).drop e = l.drop e ++ [ch] :=
            List.drop_append_of_le_length he
          refine ih rest (by simp) A B (l ++ [ch]) e
            (by simp; omega)
            (by rw [hdrop]
                intro hm
                rcases List.mem_append.mp hm with hm | hm
                · exact h10 hm
                · simp at hm
                  exact hch10 hm.symm)
            (Or.inl ?_)
          rw [hdrop, ← List.append_assoc, ← List.append_assoc,
            endsWithLF_concat, endsWithLF_concat]

/-- Total text revealed by a run followed by a final flush. -/
def flushv (t : List Nat × List Nat × Nat) : List Nat :=
  t.1 ++ t.2.1.drop t.2.2

theorem endsWithLF_eq_false_of_not_mem {X : List Nat} (h : 10 ∉ X) :
    endsWithLF X = false := by
  rw [endsWithLF]
  cases hL : X.getLast? with
  | none => simp
  | some a =>
    by_cases ha : a = 10
    · subst ha
      exact absurd (List.mem_of_mem_getLast? (by simp [hL])) h
    · simp [ha]

theorem endsWithLF_append_right {X Y : List Nat} (h : Y ≠ []) :
    endsWithLF (X ++ Y) = endsWithLF Y := by
  rw [endsWithLF, endsWithLF, List.getLast?_append_of_ne_nil _ h]

/-- One chunk, processed from a mid-stream loop state `(R, l, 0)`, reveals
(after flushing) exactly what the same chunk reveals when processed from the
corresponding post-chunk sanitizer state `(l, l.length)` with an empty
accumulator, prefixed by the pending text `R ++ l` — and both runs agree on
the final line. -/
theorem accRun_fresh_vs_flushed : ∀ (v R l₀ p : List Nat),
    10 ∉ l₀ ++ p →
    (accRun v R (l₀ ++ p) 0).2.1 =
      (accRun v [] (l₀ ++ p) l₀.length).2.1 ∧
    flushv (accRun v R (l₀ ++ p) 0) =
      R ++ l₀ ++ flushv (accRun v [] (l₀ ++ p) l₀.length) := by
  intro v
  induction v using list_length_strong_ind with
  | h v ih =>
    cases v with
    | nil =>
      intro R l₀ p h10
      refine ⟨rfl, ?_⟩
      simp [accRun_nil, flushv, List.drop_left]
    | cons ch rest =>
      intro R l₀ p h10
      rw [accRun_cons, accRun_cons]
      by_cases h13 : ch = 13
      · rw [if_pos h13, if_pos h13]
        by_cases hlf : rest.head? = some 10
        · rw [if_pos hlf, if_pos hlf]
          simp only [flushPartial_fst, List.drop_zero, List.nil_append,
            List.drop_left]
          obtain ⟨T, l', e', hA, hB⟩ :=
            accRun_acc_congr rest.tail (R ++ (l₀ ++ p) ++ [10]) (p ++ [10]) [] 0
              (by simp) (by simp)
              (Or.inl (by simp only [List.drop_nil, List.append_nil,
                endsWithLF_concat]))
          rw [hA, hB]
          constructor
          · rfl
          · simp [flushv, List.append_assoc]
        · rw [if_neg hlf, if_neg hlf]
          simp only [flushPartial_fst, List.drop_zero, List.nil_append,
            List.drop_left]
          by_cases hL : l₀ ++ p = []
          · have hl0 : l₀ = [] := by
              cases l₀ with
              | nil => rfl
              | cons a as => simp at hL
            have hp0 : p = [] := by
              cases p with
              | nil => rfl
              | cons a as => rw [hl0] at hL; simp at hL
            subst hl0; subst hp0
            rw [if_neg (by simp), if_neg (by simp)]
            simp only [List.append_nil, List.nil_append]
            obtain ⟨T, l', e', hA, hB⟩ :=
              accRun_acc_congr rest R ([] : List Nat) [] 0
                (by simp) (by simp) (Or.inr ⟨rfl, rfl⟩)
            rw [hA, hB]
            constructor
            · rfl
            · simp [flushv, List.append_assoc]
          · have hno10L : (10 : Nat) ∉ l₀ ++ p := h10
            have hendA : endsWithLF (R ++ (l₀ ++ p)) = false := by
              rw [endsWithLF_append_right hL]
              exact endsWithLF_eq_false_of_not_mem h10
            have hendB : endsWithLF p = false :=
              endsWithLF_eq_false_of_not_mem
                (fun hm => h10 (List.mem_append.mpr (Or.inr hm)))
            rw [if_pos ⟨Or.inr hL, by rw [hendA]; simp⟩,
              if_pos ⟨Or.inr hL, by rw [hendB]; simp⟩]
            obtain ⟨T, l', e', hA, hB⟩ :=
              accRun_acc_congr rest (R ++ (l₀ ++ p) ++ [10]) (p ++ [10]) [] 0
                (by simp) (by simp)
                (Or.inl (by simp only [List.drop_nil, List.append_nil,
                  endsWithLF_concat]))
            rw [hA, hB]
            constructor
            · rfl
            · simp [flushv, List.append_assoc]
      · rw [if_neg h13, if_neg h13]
        by_cases hch10 : ch = 10
        · rw [if_pos hch10, if_pos hch10]
          simp only [flushPartial_fst, List.drop_zero, List.nil_append,
            List.drop_left]
          obtain ⟨T, l', e', hA, hB⟩ :=
            accRun_acc_congr rest (R ++ (l₀ ++ p) ++ [10]) (p ++ [10]) [] 0
              (by simp) (by simp)
              (Or.inl (by simp only [List.drop_nil, List.append_nil,
                endsWithLF_concat]))
          rw [hA, hB]
          constructor
          · rfl
          · simp [flushv, List.append_assoc]
        · rw [if_neg hch10, if_neg hch10]
          have hassoc : (l₀ ++ p) ++ [ch] = l₀ ++ (p ++ [ch]) := by
            simp [List.append_assoc]
          rw [hassoc]
          refine ih rest (by simp) R l₀ (p ++ [ch]) ?_
          intro hm
          rw [← hassoc] at hm
          rcases List.mem_append.mp hm with hm | hm
          · exact h10 hm
          · simp at hm
            exact hch10 hm.symm

/-! ### Chunk-boundary compositionality of the escape-stripping scanner -/

/-- Scanning is compositional: scanning `d ++ v` reveals what scanning `d`
reveals, followed by scanning the unterminated remainder of `d` glued to
`v`. -/
theorem stripLoop_append : ∀ (d v : List Nat),
    stripLoop (d ++ v) =
      ((stripLoop d).1 ++ (stripLoop ((stripLoop d).2 ++ v)).1,
        (stripLoop ((stripLoop d).2 ++ v)).2) := by
  intro d
  induction d using list_length_strong_ind with
  | h d ih =>
    cases d with
    | nil =>
      intro v
      simp [stripLoop_nil]
    | cons ch rest =>
      intro v
      by_cases hesc : ch = 0x1b ∨ ch = 0x9b
      · cases hc : consumeEscapeSequence (ch :: rest) with
        | none =>
          have hd : stripLoop (ch :: rest) = ([], ch :: rest) := by
            rw [stripLoop_cons, if_pos hesc, hc]
          rw [hd]
          simp
        | some n =>
          have hd : stripLoop (ch :: rest) = stripLoop ((ch :: rest).drop n) := by
            rw [stripLoop_cons, if_pos hesc, hc]
          have happ : consumeEscapeSequence (ch :: (rest ++ v)) = some n := by
            have := consumeEscapeSequence_append (v := v)
              (show (ch :: rest) ≠ [] by simp) hc
            rwa [List.cons_append] at this
          have hdrop : List.drop n (ch :: (rest ++ v)) =
              (ch :: rest).drop n ++ v := by
            rw [← List.cons_append]
            exact List.drop_append_of_le_length
              (consumeEscapeSequence_le (by simp) hc)
          have hcomb : stripLoop ((ch :: rest) ++ v) =
              stripLoop ((ch :: rest).drop n ++ v) := by
            rw [List.cons_append, stripLoop_cons, if_pos hesc, happ]
            show stripLoop (List.drop n (ch :: (rest ++ v))) = _
            rw [hdrop]
          rw [hcomb, hd]
          have hn : 1 ≤ n := consumeEscapeSequence_pos hc
          exact ih ((ch :: rest).drop n) (by simp [List.length_drop]; omega) v
      · by_cases hctl : isControlCode ch = true
        · have hd : stripLoop (ch :: rest) = stripLoop rest := by
            rw [stripLoop_cons, if_neg hesc, if_pos hctl]
          have hcomb : stripLoop ((ch :: rest) ++ v) = stripLoop (rest ++ v) := by
            rw [List.cons_append, stripLoop_cons, if_neg hesc, if_pos hctl]
          rw [hcomb, hd]
          exact ih rest (by simp) v
        · have hd : stripLoop (ch :: rest) =
              (ch :: (stripLoop rest).1, (stripLoop rest).2) := by
            rw [stripLoop_cons, if_neg hesc, if_neg hctl]
          have hcomb : stripLoop ((ch :: rest) ++ v) =
              (ch :: (stripLoop (rest ++ v)).1, (stripLoop (rest ++ v)).2) := by
            rw [List.cons_append, stripLoop_cons, if_neg hesc, if_neg hctl]
          rw [hcomb, hd, ih rest (by simp) v]
          simp

/-- The unterminated remainder is a fixed point of the scanner: re-scanning
it with no new data reveals nothing and leaves it pending. -/
theorem stripLoop_remainder_fix : ∀ (d : List Nat),
    stripLoop ((stripLoop d).2) = ([], (stripLoop d).2) := by
  intro d
  induction d using list_length_strong_ind with
  | h d ih =>
    cases d with
    | nil => simp [stripLoop_nil]
    | cons ch rest =>
      by_cases hesc : ch = 0x1b ∨ ch = 0x9b
      · cases hc : consumeEscapeSequence (ch :: rest) with
        | none =>
          have hd : stripLoop (ch :: rest) = ([], ch :: rest) := by
            rw [stripLoop_cons, if_pos hesc, hc]
          rw [hd]
          exact hd
        | some n =>
          have hd : stripLoop (ch :: rest) = stripLoop ((ch :: rest).drop n) := by
            rw [stripLoop_cons, if_pos hesc, hc]
          rw [hd]
          have hn : 1 ≤ n := consumeEscapeSequence_pos hc
          exact ih ((ch :: rest).drop n) (by simp [List.length_drop]; omega)
      · by_cases hctl : isControlCode ch = true
        · have hd : stripLoop (ch :: rest) = stripLoop rest := by
            rw [stripLoop_cons, if_neg hesc, if_pos hctl]
          rw [hd]
          exact ih rest (by simp)
        · have hd : stripLoop (ch :: rest) =
              (ch :: (stripLoop rest).1, (stripLoop rest).2) := by
            rw [stripLoop_cons, if_neg hesc, if_neg hctl]
          rw [hd]
          exact ih rest (by simp)

/-! ### Multi-chunk sanitization -/

/-- Concatenation of a list of chunks. -/
def concatL (ds : List (List Nat)) : List Nat := ds.foldr (· ++ ·) []

/-- Feed a list of chunks through `sanitizeChunk` sequentially with one
shared state, concatenating the returned deltas. -/
def sanitizeAll : List (List Nat) → TermSanState → List Nat × TermSanState
  | [], st => ([], st)
  | c :: rest, st =>
    let t := sanitizeChunk c st
    let t2 := sanitizeAll rest t.2
    (t.1 ++ t2.1, t2.2)

/-- The escape-stripped text revealed per chunk (threading the pending
buffer), as produced by the per-chunk sanitizer calls. -/
def cleanDeltas : List (List Nat) → List Nat → List (List Nat)
  | [], _ => []
  | c :: rest, p =>
    (stripAnsiAndControls c p).1 :: cleanDeltas rest (stripAnsiAndControls c p).2

/-- No boundary between successive revealed texts separates a carriage
return from an immediately following line feed. -/
def crlfSafe : List (List Nat) → Bool
  | [] => true
  | c :: rest =>
    !(decide (c.getLast? = some 13) && decide ((concatL rest).head? = some 10)) &&
      crlfSafe rest

/-- What the per-chunk carriage-control runs emit, starting from a fully
flushed line `l`. -/
def splitEmit : List (List Nat) → List Nat → List Nat
  | [], _ => []
  | c :: rest, l =>
    flushv (accRun c [] l l.length) ++ splitEmit rest (accRun c [] l l.length).2.1

/-- Processing concatenated revealed texts in one run from a fresh-style
state equals the concatenation of the per-chunk runs, provided no boundary
splits a CR/LF pair. -/
theorem accRun_concat_split : ∀ (ds : List (List Nat)) (R l : List Nat),
    10 ∉ l → crlfSafe ds = true →
    flushv (accRun (concatL ds) R l 0) = R ++ l ++ splitEmit ds l := by
  intro ds
  induction ds with
  | nil =>
    intro R l _ _
    simp [concatL, accRun_nil, flushv, splitEmit]
  | cons c rest ih =>
    intro R l h10 hsafe
    have hsafe1 : ¬ (c.getLast? = some 13 ∧ (concatL rest).head? = some 10) := by
      intro hcon
      rw [crlfSafe] at hsafe
      simp [hcon.1, hcon.2] at hsafe
    have hsafe2 : crlfSafe rest = true := by
      rw [crlfSafe] at hsafe
      exact (Bool.and_eq_true_iff.mp hsafe).2
    have hconcat : concatL (c :: rest) = c ++ concatL rest := rfl
    rw [hconcat, accRun_append c (concatL rest) R l 0 hsafe1]
    have he0 : (accRun c R l 0).2.2 = 0 := accRun_e_zero c R l
    obtain ⟨hline, hflush⟩ := accRun_fresh_vs_flushed c R l [] (by simpa using h10)
    rw [List.append_nil] at hline hflush
    have h10' : 10 ∉ (accRun c R l 0).2.1 := accRun_line_no_lf c R l 0 h10
    rw [he0]
    rw [ih (accRun c R l 0).1 (accRun c R l 0).2.1 h10' hsafe2]
    have hsplit : splitEmit (c :: rest) l =
        flushv (accRun c [] l l.length) ++
          splitEmit rest (accRun c [] l l.length).2.1 := rfl
    rw [hsplit, ← hline]
    have : (accRun c R l 0).1 ++ (accRun c R l 0).2.1 =
        R ++ l ++ flushv (accRun c [] l l.length) := by
      have := hflush
      rw [flushv, he0, List.drop_zero] at this
      exact this
    calc (accRun c R l 0).1 ++ (accRun c R l 0).2.1 ++
          splitEmit rest (accRun c R l 0).2.1
        = (R ++ l ++ flushv (accRun c [] l l.length)) ++
            splitEmit rest (accRun c R l 0).2.1 := by rw [this]
      _ = R ++ l ++ (flushv (accRun c [] l l.length) ++
            splitEmit rest (accRun c R l 0).2.1) := by
          simp [List.append_assoc]

/-- Escape-stripping a concatenation of chunks in one call reveals the
concatenation of the per-chunk revealed texts (threading the pending
buffer), whenever the initial pending buffer is a scanner fixed point. -/
theorem strip_concat : ∀ (chunks : List (List Nat)) (p : List Nat),
    stripLoop p = ([], p) →
    (stripAnsiAndControls (concatL chunks) p).1 =
      concatL (cleanDeltas chunks p) := by
  intro chunks
  induction chunks with
  | nil =>
    intro p hp
    have hc0 : concatL ([] : List (List Nat)) = [] := rfl
    rw [stripAnsiAndControls_eq, hc0, List.append_nil, hp]
    rfl
  | cons c rest ih =>
    intro p hp
    rw [stripAnsiAndControls_eq]
    have hconcat : concatL (c :: rest) = c ++ concatL rest := rfl
    rw [hconcat, ← List.append_assoc, stripLoop_append (p ++ c) (concatL rest)]
    have hr : stripLoop ((stripLoop (p ++ c)).2) = ([], (stripLoop (p ++ c)).2) :=
      stripLoop_remainder_fix (p ++ c)
    have hrest : (stripLoop ((stripLoop (p ++ c)).2 ++ concatL rest)).1 =
        concatL (cleanDeltas rest ((stripLoop (p ++ c)).2)) := by
      have := ih ((stripLoop (p ++ c)).2) hr
      rwa [stripAnsiAndControls_eq] at this
    show (stripLoop (p ++ c)).1 ++ _ = _
    rw [hrest]
    have hclean : (stripAnsiAndControls c p).1 = (stripLoop (p ++ c)).1 := by
      rw [stripAnsiAndControls_eq]
    have hrem : (stripAnsiAndControls c p).2 = (stripLoop (p ++ c)).2 := by
      rw [stripAnsiAndControls_eq]
    show _ = concatL ((stripAnsiAndControls c p).1 ::
      cleanDeltas rest ((stripAnsiAndControls c p).2))
    rw [hclean, hrem]
    rfl

/-- On nonempty revealed text, `applyCarriageControl` runs the loop and the
final flush, and stores the new fully flushed line. -/
theorem applyCarriageControl_eq (v : List Nat) (st : TermSanState)
    (hv : v ≠ []) :
    applyCarriageControl v st =
      (flushv (accRun v [] st.currentLine st.emittedLength),
        { st with
          currentLine := (accRun v [] st.currentLine st.emittedLength).2.1,
          emittedLength :=
            (accRun v [] st.currentLine st.emittedLength).2.1.length }) := by
  rw [applyCarriageControl, if_neg hv]
  rcases ht : accRun v [] st.currentLine st.emittedLength with ⟨res, line, e⟩
  simp [flushPartial, flushv, ht]

/-- The concatenated deltas of the per-chunk sanitizer calls equal the
per-chunk carriage-control emissions on the revealed texts, for any state
whose pending buffer is a scanner fixed point and whose line is fully
flushed. -/
theorem sanitizeAll_emit : ∀ (chunks : List (List Nat)) (st : TermSanState),
    stripLoop st.pending = ([], st.pending) →
    st.emittedLength = st.currentLine.length →
    (sanitizeAll chunks st).1 =
      splitEmit (cleanDeltas chunks st.pending) st.currentLine := by
  intro chunks
  induction chunks with
  | nil =>
    intro st _ _
    rfl
  | cons c rest ih =>
    intro st hp he
    have hunfold : (sanitizeAll (c :: rest) st).1 =
        (sanitizeChunk c st).1 ++ (sanitizeAll rest (sanitizeChunk c st).2).1 :=
      rfl
    have hchunk : sanitizeChunk c st =
        applyCarriageControl (stripAnsiAndControls c st.pending).1
          { st with pending := (stripAnsiAndControls c st.pending).2 } := rfl
    have hremfix : stripLoop ((stripAnsiAndControls c st.pending).2) =
        ([], (stripAnsiAndControls c st.pending).2) := by
      rw [stripAnsiAndControls_eq]
      exact stripLoop_remainder_fix (st.pending ++ c)
    have hsplit : splitEmit (cleanDeltas (c :: rest) st.pending) st.currentLine =
        flushv (accRun (stripAnsiAndControls c st.pending).1 [] st.currentLine
            st.currentLine.length) ++
          splitEmit (cleanDeltas rest ((stripAnsiAndControls c st.pending).2))
            (accRun (stripAnsiAndControls c st.pending).1 [] st.currentLine
              st.currentLine.length).2.1 := rfl
    rw [hunfold, hsplit]
    by_cases hcl : (stripAnsiAndControls c st.pending).1 = []
    · have happly : sanitizeChunk c st =
          ([], { st with pending := (stripAnsiAndControls c st.pending).2 }) := by
        rw [hchunk, hcl, applyCarriageControl, if_pos rfl]
      rw [happly]
      simp only [hcl, accRun_nil, flushv]
      rw [List.drop_length]
      simp only [List.append_nil, List.nil_append]
      exact ih _ hremfix (by simpa using he)
    · rw [hchunk, applyCarriageControl_eq _ _ hcl]
      dsimp only
      rw [← he]
      congr 1
      exact ih _ hremfix rfl

/-! ### Claim C1 -/

/-- Claim C1, counterexample: splitting the stream "a\r\n" into the chunks
"a\r" and "\n" — a split point inside a CR/LF pair — makes the sequential
sanitizer emit "a\n\n" while sanitizing the whole stream in a single call
on a fresh state emits "a\n", so chunk-boundary invariance as stated fails;
both chunks are non-empty. -/
theorem sanitize_chunk_invariance_cex :
    (sanitizeAll [[97, 13], [10]] freshSan).1 ≠
      (sanitizeChunk (concatL [[97, 13], [10]]) freshSan).1 ∧
    (∀ c ∈ [[97, 13], [10]], c ≠ ([] : List Nat)) ∧
    (sanitizeAll [[97, 13], [10]] freshSan).1 = [97, 10, 10] ∧
    (sanitizeChunk (concatL [[97, 13], [10]]) freshSan).1 = [97, 10] := by
  decide

/-- Claim C1, amended: for every partition of a stream into chunks fed
sequentially through `sanitizeChunk` with one shared fresh state, the
concatenation of the returned deltas equals the single-call result,
provided no chunk boundary separates a carriage return from an immediately
following line feed in the escape-stripped character stream (splits inside
control sequences are always safe); a split between a CR and its LF is the
one exception, as the counterexample shows. -/
theorem sanitize_chunk_invariance (chunks : List (List Nat))
    (hne : ∀ c ∈ chunks, c ≠ [])
    (hsafe : crlfSafe (cleanDeltas chunks []) = true) :
    (sanitizeAll chunks freshSan).1 =
      (sanitizeChunk (concatL chunks) freshSan).1 := by
  have hds := strip_concat chunks [] stripLoop_nil
  have hmain := accRun_concat_split (cleanDeltas chunks []) [] [] (by simp) hsafe
  simp only [List.nil_append] at hmain
  have hL : (sanitizeAll chunks freshSan).1 =
      splitEmit (cleanDeltas chunks []) [] :=
    sanitizeAll_emit chunks freshSan stripLoop_nil rfl
  rw [hL, ← hmain]
  have hchunk : sanitizeChunk (concatL chunks) freshSan =
      applyCarriageControl (stripAnsiAndControls (concatL chunks) []).1
        { freshSan with
          pending := (stripAnsiAndControls (concatL chunks) []).2 } := rfl
  by_cases hempty : (stripAnsiAndControls (concatL chunks) []).1 = []
  · have h0 : concatL (cleanDeltas chunks []) = [] := by rw [← hds, hempty]
    rw [h0, hchunk, hempty]
    rfl
  · rw [hchunk, applyCarriageControl_eq _ _ hempty]
    dsimp only [freshSan]
    rw [hds]

/-- Claim C1, witness for the amended theorem: a concrete 3-chunk split of
"ESC [ 3 1 m a \r \n b" with a boundary inside the CSI sequence. -/
theorem sanitize_chunk_invariance_witness :
    (∀ c ∈ [[27, 91, 51], [49, 109, 97], [13, 10, 98]], c ≠ ([] : List Nat)) ∧
    crlfSafe (cleanDeltas [[27, 91, 51], [49, 109, 97], [13, 10, 98]] []) = true ∧
    (sanitizeAll [[27, 91, 51], [49, 109, 97], [13, 10, 98]] freshSan).1 =
      (sanitizeChunk (concatL [[27, 91, 51], [49, 109, 97], [13, 10, 98]])
        freshSan).1 :=
  ⟨by decide, by decide,
    sanitize_chunk_invariance _ (by decide) (by decide)⟩

/-! ### Claim C2 -/

/-- A code unit that the sanitizer is allowed to reveal: not a bare control
code (0x00–0x08, 0x0B, 0x0C, 0x0E–0x1F, 0x7F — a range containing ESC
0x1B), and not the CSI introducer 0x9B. -/
def goodOut (c : Nat) : Prop := isControlCode c = false ∧ c ≠ 155

instance : DecidablePred goodOut := fun c => by
  unfold goodOut
  infer_instance

/-- Every code unit the scanner reveals is a permitted one: escape
introducers start consumed sequences and bare control codes are dropped. -/
theorem stripLoop_clean_good : ∀ (d : List Nat), ∀ x ∈ (stripLoop d).1,
    goodOut x := by
  intro d
  induction d using list_length_strong_ind with
  | h d ih =>
    cases d with
    | nil =>
      intro x hx
      simp [stripLoop_nil] at hx
    | cons ch rest =>
      by_cases hesc : ch = 0x1b ∨ ch = 0x9b
      · cases hc : consumeEscapeSequence (ch :: rest) with
        | none =>
          have hd : stripLoop (ch :: rest) = ([], ch :: rest) := by
            rw [stripLoop_cons, if_pos hesc, hc]
          rw [hd]
          intro x hx
          simp at hx
        | some n =>
          have hd : stripLoop (ch :: rest) = stripLoop ((ch :: rest).drop n) := by
            rw [stripLoop_cons, if_pos hesc, hc]
          rw [hd]
          have hn : 1 ≤ n := consumeEscapeSequence_pos hc
          exact ih ((ch :: rest).drop n) (by simp [List.length_drop]; omega)
      · by_cases hctl : isControlCode ch = true
        · have hd : stripLoop (ch :: rest) = stripLoop rest := by
            rw [stripLoop_cons, if_neg hesc, if_pos hctl]
          rw [hd]
          exact ih rest (by simp)
        · have hd : stripLoop (ch :: rest) =
              (ch :: (stripLoop rest).1, (stripLoop rest).2) := by
            rw [stripLoop_cons, if_neg hesc, if_neg hctl]
          rw [hd]
          intro x hx
          rcases List.mem_cons.mp hx with hx | hx
          · subst hx
            refine ⟨by simpa using hctl, ?_⟩
            intro hx155
            exact hesc (Or.inr hx155)
          · exact ih rest (by simp) x hx

/-- Characters revealed by the carriage-control loop are permitted whenever
the incoming text, the accumulator, and the stored line contain only
permitted characters (a fresh line feed is itself permitted). -/
theorem accRun_good : ∀ (v R l : List Nat) (e : Nat),
    (∀ x ∈ v, goodOut x) → (∀ x ∈ R, goodOut x) → (∀ x ∈ l, goodOut x) →
    (∀ x ∈ (accRun v R l e).1, goodOut x) ∧
      (∀ x ∈ (accRun v R l e).2.1, goodOut x) := by
  intro v
  induction v using list_length_strong_ind with
  | h v ih =>
    cases v with
    | nil =>
      intro R l e _ hR hl
      exact ⟨hR, hl⟩
    | cons ch rest =>
      intro R l e hv hR hl
      have hgood10 : goodOut 10 := by decide
      have hflush : ∀ x ∈ (flushPartial R l e).1 ++ [10], goodOut x := by
        intro x hx
        rcases List.mem_append.mp hx with hx | hx
        · rcases List.mem_append.mp hx with hx | hx
          · exact hR x hx
          · exact hl x (List.mem_of_mem_drop hx)
        · simp at hx
          subst hx
          exact hgood10
      have hvrest : ∀ x ∈ rest, goodOut x := fun x hx => hv x (by simp [hx])
      rw [accRun_cons]
      by_cases h13 : ch = 13
      · rw [if_pos h13]
        by_cases hlf : rest.head? = some 10
        · rw [if_pos hlf]
          exact ih rest.tail (by simp [List.length_tail]; omega) _ _ _
            (fun x hx => hvrest x (List.mem_of_mem_tail hx)) hflush (by simp)
        · rw [if_neg hlf]
          dsimp only
          by_cases hcond : (0 < e ∨ l ≠ []) ∧
              ¬ (endsWithLF (flushPartial R l e).1 = true)
          · rw [if_pos hcond]
            exact ih rest (by simp) _ _ _ hvrest hflush (by simp)
          · rw [if_neg hcond]
            refine ih rest (by simp) _ _ _ hvrest ?_ (by simp)
            intro x hx
            rcases List.mem_append.mp hx with hx | hx
            · exact hR x hx
            · exact hl x (List.mem_of_mem_drop hx)
      · rw [if_neg h13]
        by_cases hch10 : ch = 10
        · rw [if_pos hch10]
          exact ih rest (by simp) _ _ _ hvrest hflush (by simp)
        · rw [if_neg hch10]
          refine ih rest (by simp) _ _ _ hvrest hR ?_
          intro x hx
          rcases List.mem_append.mp hx with hx | hx
          · exact hl x hx
          · simp at hx
            subst hx
            exact hv _ (List.mem_cons_self _ _)

/-- Claim C2, counterexample: the claim quantifies over every sanitizer
state, but a state whose `currentLine` already holds an ESC byte makes
`sanitizeChunk` flush that byte into its output, so the literal statement
fails on such states (which never arise from a fresh state). -/
theorem sanitize_no_controls_cex :
    27 ∈ (sanitizeChunk [10] ⟨[], [27], 0⟩).1 ∧
    (sanitizeChunk [10] ⟨[], [27], 0⟩).1 = [27, 10] := by
  decide

/-- Claim C2, amended: for every chunk and every state whose stored
`currentLine` is free of forbidden bytes — as holds for every state
reachable from a fresh one — the string returned by `sanitizeChunk`
contains no code unit in 0x00–0x08, 0x0B, 0x0C, 0x0E–0x1F, 0x7F, and
neither ESC 0x1B nor the single-byte CSI introducer 0x9B; moreover the new
`currentLine` again only holds permitted bytes, so the property is
preserved along every sequence of calls. -/
theorem sanitize_no_controls (raw : List Nat) (st : TermSanState)
    (hline : ∀ x ∈ st.currentLine, goodOut x) :
    (∀ x ∈ (sanitizeChunk raw st).1,
      isControlCode x = false ∧ x ≠ 27 ∧ x ≠ 155) ∧
    (∀ x ∈ (sanitizeChunk raw st).2.currentLine, goodOut x) := by
  have h27 : ∀ x : Nat, goodOut x → isControlCode x = false ∧ x ≠ 27 ∧ x ≠ 155 := by
    intro x hx
    refine ⟨hx.1, ?_, hx.2⟩
    intro h
    subst h
    exact absurd hx.1 (by decide)
  have hclean : ∀ x ∈ (stripAnsiAndControls raw st.pending).1, goodOut x := by
    rw [stripAnsiAndControls_eq]
    exact stripLoop_clean_good _
  have hchunk : sanitizeChunk raw st =
      applyCarriageControl (stripAnsiAndControls raw st.pending).1
        { st with pending := (stripAnsiAndControls raw st.pending).2 } := rfl
  by_cases hcl : (stripAnsiAndControls raw st.pending).1 = []
  · rw [hchunk, hcl, applyCarriageControl, if_pos rfl]
    exact ⟨by intro x hx; simp at hx, hline⟩
  · rw [hchunk, applyCarriageControl_eq _ _ hcl]
    dsimp only
    obtain ⟨hout, hln⟩ := accRun_good (stripAnsiAndControls raw st.pending).1
      [] st.currentLine st.emittedLength hclean (by simp) hline
    refine ⟨?_, hln⟩
    intro x hx
    rcases List.mem_append.mp hx with hx | hx
    · exact h27 x (hout x hx)
    · exact h27 x (hln x (List.mem_of_mem_drop hx))

/-- Claim C2, witness: sanitizing a chunk full of escapes and raw controls
from a fresh state yields only permitted bytes. -/
theorem sanitize_no_controls_witness :
    (∀ x ∈ freshSan.currentLine, goodOut x) ∧
    (∀ x ∈ (sanitizeChunk [27, 91, 51, 49, 109, 72, 1, 105, 13, 10, 155]
        freshSan).1, isControlCode x = false ∧ x ≠ 27 ∧ x ≠ 155) :=
  ⟨by decide,
    (sanitize_no_controls [27, 91, 51, 49, 109, 72, 1, 105, 13, 10, 155]
      freshSan (by decide)).1⟩

/-! ### Claim C6 -/

/-- Claim C6: for every non-empty raw chunk, `prepareDisplayContent`
returns the sanitized text unchanged when it is non-empty; when
sanitization resolves to the empty string it reports the single newline
signal exactly when the raw chunk contains a line feed (the `/\r?\n/`
test), and `null` otherwise. -/
theorem prepare_display_content_spec (raw : List Nat) (st : TermSanState)
    (h : raw ≠ []) :
    ((sanitizeChunk raw st).1 = [] → 10 ∈ raw →
      (prepareDisplayContent (some raw) st).1 = some [10]) ∧
    ((sanitizeChunk raw st).1 = [] → 10 ∉ raw →
      (prepareDisplayContent (some raw) st).1 = none) ∧
    ((sanitizeChunk raw st).1 ≠ [] →
      (prepareDisplayContent (some raw) st).1 = some (sanitizeChunk raw st).1) := by
  refine ⟨?_, ?_, ?_⟩
  · intro hs hlf
    simp [prepareDisplayContent, h, hs, hlf]
  · intro hs hlf
    simp [prepareDisplayContent, h, hs, hlf]
  · intro hs
    simp [prepareDisplayContent, h, hs]

/-- Claim C6, witness: an unterminated OSC sequence containing a line feed
sanitizes to nothing, yet the newline signal is reported. -/
theorem prepare_display_content_spec_witness :
    ([27, 93, 10] : List Nat) ≠ [] ∧
    (sanitizeChunk [27, 93, 10] freshSan).1 = [] ∧
    10 ∈ ([27, 93, 10] : List Nat) ∧
    (prepareDisplayContent (some [27, 93, 10]) freshSan).1 = some [10] :=
  ⟨by decide, by decide, by decide,
    (prepare_display_content_spec [27, 93, 10] freshSan (by decide)).1
      (by decide) (by decide)⟩

/-! ### Claim C7 -/

/-- A pending buffer is well formed when re-scanning it alone reveals
nothing and leaves it pending — true of the empty buffer and of every
remainder the scanner itself produces. -/
def WfPending (p : List Nat) : Prop := stripLoop p = ([], p)

instance : DecidablePred WfPending := fun p => by
  unfold WfPending
  infer_instance

/-- Claim C7: `sanitizeChunk` preserves the invariant
`emittedLength ≤ currentLine.length` (the lower bound 0 ≤ emittedLength is
inherent in the type); with a well-formed pending buffer, a call on the
empty chunk returns the empty string and leaves the state untouched — so
arbitrarily many empty-input calls each return the empty string and never
re-emit a character already returned — and every call leaves a well-formed
pending buffer, so this holds along every call sequence. -/
theorem sanitize_emitted_invariant (raw : List Nat) (st : TermSanState) :
    (st.emittedLength ≤ st.currentLine.length →
      (sanitizeChunk raw st).2.emittedLength ≤
        (sanitizeChunk raw st).2.currentLine.length) ∧
    (WfPending st.pending → sanitizeChunk [] st = ([], st)) ∧
    WfPending (sanitizeChunk raw st).2.pending := by
  have hchunk : sanitizeChunk raw st =
      applyCarriageControl (stripAnsiAndControls raw st.pending).1
        { st with pending := (stripAnsiAndControls raw st.pending).2 } := rfl
  have hwfrem : WfPending (stripAnsiAndControls raw st.pending).2 := by
    rw [WfPending, stripAnsiAndControls_eq]
    exact stripLoop_remainder_fix (st.pending ++ raw)
  refine ⟨?_, ?_, ?_⟩
  · intro he
    by_cases hcl : (stripAnsiAndControls raw st.pending).1 = []
    · rw [hchunk, hcl, applyCarriageControl, if_pos rfl]
      exact he
    · rw [hchunk, applyCarriageControl_eq _ _ hcl]
  · intro hwf
    have hstrip : stripAnsiAndControls [] st.pending = ([], st.pending) := by
      rw [stripAnsiAndControls]
      by_cases hp : st.pending = []
      · rw [if_pos ⟨hp, rfl⟩, hp]
      · rw [if_neg (by intro hc; exact hp hc.1), List.append_nil]
        exact hwf
    show applyCarriageControl (stripAnsiAndControls [] st.pending).1
        { st with pending := (stripAnsiAndControls [] st.pending).2 } = ([], st)
    rw [hstrip]
    show applyCarriageControl [] { st with pending := st.pending } = ([], st)
    rw [applyCarriageControl, if_pos rfl]
  · by_cases hcl : (stripAnsiAndControls raw st.pending).1 = []
    · rw [hchunk, hcl, applyCarriageControl, if_pos rfl]
      exact hwfrem
    · rw [hchunk, applyCarriageControl_eq _ _ hcl]
      exact hwfrem

/-- Claim C7, witness: after sanitizing a chunk that leaves a partial line
and a pending escape, the invariant holds and a further empty call is a
no-op. -/
theorem sanitize_emitted_invariant_witness :
    freshSan.emittedLength ≤ freshSan.currentLine.length ∧
    (sanitizeChunk [97, 98, 27, 91] freshSan).2.emittedLength ≤
      (sanitizeChunk [97, 98, 27, 91] freshSan).2.currentLine.length ∧
    WfPending ((sanitizeChunk [97, 98, 27, 91] freshSan).2.pending) ∧
    sanitizeChunk [] ((sanitizeChunk [97, 98, 27, 91] freshSan).2) =
      ([], (sanitizeChunk [97, 98, 27, 91] freshSan).2) :=
  ⟨by decide,
    (sanitize_emitted_invariant [97, 98, 27, 91] freshSan).1 (by decide),
    (sanitize_emitted_invariant [97, 98, 27, 91] freshSan).2.2,
    (sanitize_emitted_invariant []
        ((sanitizeChunk [97, 98, 27, 91] freshSan).2)).2.1 (by decide)⟩

/-! ### Claim C9 -/

theorem consumeCsiSequence_malformed (params : List Nat) (b : Nat)
    (rest : List Nat) (acc : Nat)
    (hp : ∀ x ∈ params,
      (CSI_PARAMETER_MIN ≤ x ∧ x ≤ CSI_PARAMETER_MAX) ∨
      (CSI_INTERMEDIATE_MIN ≤ x ∧ x ≤ CSI_INTERMEDIATE_MAX))
    (hb1 : ¬ (CSI_FINAL_MIN ≤ b ∧ b ≤ CSI_FINAL_MAX))
    (hb2 : ¬ ((CSI_PARAMETER_MIN ≤ b ∧ b ≤ CSI_PARAMETER_MAX) ∨
      (CSI_INTERMEDIATE_MIN ≤ b ∧ b ≤ CSI_INTERMEDIATE_MAX))) :
    consumeCsiSequence (params ++ b :: rest) acc =
      some (acc + params.length + 1) := by
  induction params generalizing acc with
  | nil =>
    rw [List.nil_append, consumeCsiSequence, if_neg hb1, if_neg hb2]
    simp
  | cons x xs ih =>
    have hx := hp x (by simp)
    have hxnotfinal : ¬ (CSI_FINAL_MIN ≤ x ∧ x ≤ CSI_FINAL_MAX) := by
      rcases hx with hx | hx <;>
        · simp [CSI_FINAL_MIN, CSI_FINAL_MAX, CSI_PARAMETER_MIN,
            CSI_PARAMETER_MAX, CSI_INTERMEDIATE_MIN, CSI_INTERMEDIATE_MAX]
            at hx ⊢
          omega
    rw [List.cons_append, consumeCsiSequence, if_neg hxnotfinal, if_pos hx]
    rw [ih (acc + 1) (fun y hy => hp y (by simp [hy]))]
    congr 1
    simp only [List.length_cons]
    omega

/-- Claim C9: inside a CSI sequence (opened by `ESC [` or by the lone byte
0x9B), a byte that is neither a parameter byte (0x30–0x3F), an intermediate
byte (0x20–0x2F), nor a final byte (0x40–0x7E) terminates the sequence and
is itself consumed with it: scanning continues directly after the offending
byte, and neither the sequence prefix nor the offending byte reaches the
output. -/
theorem csi_malformed_termination (params : List Nat) (b : Nat)
    (rest : List Nat)
    (hp : ∀ x ∈ params,
      (CSI_PARAMETER_MIN ≤ x ∧ x ≤ CSI_PARAMETER_MAX) ∨
      (CSI_INTERMEDIATE_MIN ≤ x ∧ x ≤ CSI_INTERMEDIATE_MAX))
    (hb1 : ¬ (CSI_FINAL_MIN ≤ b ∧ b ≤ CSI_FINAL_MAX))
    (hb2 : ¬ ((CSI_PARAMETER_MIN ≤ b ∧ b ≤ CSI_PARAMETER_MAX) ∨
      (CSI_INTERMEDIATE_MIN ≤ b ∧ b ≤ CSI_INTERMEDIATE_MAX))) :
    stripLoop (27 :: 91 :: (params ++ b :: rest)) = stripLoop rest ∧
    stripLoop (155 :: (params ++ b :: rest)) = stripLoop rest := by
  have hdroplem : ∀ (pre : List Nat),
      List.drop (pre.length + 1) (pre ++ b :: rest) = rest := by
    intro pre
    have : pre ++ b :: rest = (pre ++ [b]) ++ rest := by simp
    rw [this]
    have hlen : pre.length + 1 = (pre ++ [b]).length := by simp
    rw [hlen, List.drop_left]
  constructor
  · have hcons : consumeEscapeSequence (27 :: 91 :: (params ++ b :: rest)) =
        some (2 + params.length + 1) := by
      rw [consumeEscapeSequence, if_neg (by norm_num), if_neg (by norm_num)]
      rw [consumeEscapeTail, if_pos rfl]
      exact consumeCsiSequence_malformed params b rest 2 hp hb1 hb2
    rw [stripLoop_cons, if_pos (Or.inl rfl), hcons]
    show stripLoop (List.drop (2 + params.length + 1)
      (27 :: 91 :: (params ++ b :: rest))) = stripLoop rest
    have : List.drop (2 + params.length + 1)
        (27 :: 91 :: (params ++ b :: rest)) =
        List.drop (params.length + 1) (params ++ b :: rest) := by
      have h2 : 2 + params.length + 1 = (params.length + 1) + 1 + 1 := by omega
      rw [h2]
      rfl
    rw [this, hdroplem params]
  · have hcons : consumeEscapeSequence (155 :: (params ++ b :: rest)) =
        some (1 + params.length + 1) := by
      rw [consumeEscapeSequence, if_pos rfl]
      exact consumeCsiSequence_malformed params b rest 1 hp hb1 hb2
    rw [stripLoop_cons, if_pos (Or.inr rfl), hcons]
    show stripLoop (List.drop (1 + params.length + 1)
      (155 :: (params ++ b :: rest))) = stripLoop rest
    have : List.drop (1 + params.length + 1)
        (155 :: (params ++ b :: rest)) =
        List.drop (params.length + 1) (params ++ b :: rest) := by
      have h2 : 1 + params.length + 1 = (params.length + 1) + 1 := by omega
      rw [h2]
      rfl
    rw [this, hdroplem params]

/-- Claim C9, witness: a line feed inside `ESC [ 1` ends the sequence and
is swallowed with it. -/
theorem csi_malformed_termination_witness :
    (∀ x ∈ ([49] : List Nat),
      (CSI_PARAMETER_MIN ≤ x ∧ x ≤ CSI_PARAMETER_MAX) ∨
      (CSI_INTERMEDIATE_MIN ≤ x ∧ x ≤ CSI_INTERMEDIATE_MAX)) ∧
    stripLoop (27 :: 91 :: ([49] ++ 10 :: [97])) = stripLoop [97] ∧
    stripLoop (155 :: ([49] ++ 10 :: [97])) = stripLoop [97] :=
  ⟨by decide,
    (csi_malformed_termination [49] 10 [97] (by decide) (by decide)
      (by decide)).1,
    (csi_malformed_termination [49] 10 [97] (by decide) (by decide)
      (by decide)).2⟩

/-! ### Session controller: data model -/

inductive Role
  | user
  | server
  deriving Repr, DecidableEq

/-- A displayable transcript record (`Message` in the source; `isError?` is
an optional boolean). -/
structure Msg where
  id : Nat
  role : Role
  content : List Nat
  isError : Option Bool
  deriving Repr, DecidableEq

inductive ConnState
  | disconnected
  | connecting
  | connected
  deriving Repr, DecidableEq

structure FormState where
  host : List Nat
  port : Nat
  username : List Nat
  password : List Nat
  deriving Repr, DecidableEq

/-- The controller state: the component's `useState`/`useRef` cells.  The
`timer` field models the connect-watchdog `setTimeout` handle
(`connectionTimeoutRef`): `some d` is an armed timeout of `d` ms. -/
structure CState where
  hasSocket : Bool
  connectionState : ConnState
  messages : List Msg
  nextMessageId : Nat
  isCommandRunning : Bool
  isShellActive : Bool
  isShellToggling : Bool
  shouldMaskNextInput : Bool
  commandSan : TermSanState
  shellSan : TermSanState
  form : FormState
  command : List Nat
  commandHistory : List (List Nat)
  historyIndex : Option Nat
  timer : Option Nat
  deriving Repr, DecidableEq

structure MsgReq where
  role : Role
  content : List Nat
  isError : Option Bool
  deriving Repr, DecidableEq

/-- The `combinedContent` computation of `appendMessage`: concatenate,
inserting a newline separator unless the old content already ends with a
line feed or the incoming content begins with one. -/
def mergedContent (old incoming : List Nat) : List Nat :=
  if endsWithLF old = true ∨ incoming.head? = some 10 then old ++ incoming
  else old ++ [10] ++ incoming

/-- `appendMessage` from the source: a server message whose coerced
`isError` matches the last (server) record is merged into it; otherwise a
new record with a fresh id is appended. -/
def appendMessage (prev : List Msg) (nextId : Nat) (m : MsgReq) :
    List Msg × Nat :=
  match prev.getLast? with
  | some lastMessage =>
    if m.role = Role.server ∧ lastMessage.role = m.role ∧
        lastMessage.isError.getD false = m.isError.getD false then
      (prev.dropLast ++
        [{ lastMessage with
           content := mergedContent lastMessage.content m.content }], nextId)
    else (prev ++ [⟨nextId, m.role, m.content, m.isError⟩], nextId + 1)
  | none => (prev ++ [⟨nextId, m.role, m.content, m.isError⟩], nextId + 1)

/-- `sanitizeEphemeral` from the source: sanitize with a throw-away state. -/
def sanitizeEphemeral (raw : Option (List Nat)) : Option (List Nat) :=
  (prepareDisplayContent raw ⟨[], [], 0⟩).1

/-- JavaScript truthiness of an optional string field. -/
def jsTruthy (o : Option (List Nat)) : Bool :=
  match o with
  | none => false
  | some s => decide (s ≠ [])

/-- `text.split(/\r?\n/)`: CRLF and LF are separators, a lone CR is not. -/
def splitLinesAux : List Nat → List Nat → List (List Nat)
  | [], acc => [acc.reverse]
  | 13 :: 10 :: rest, acc => acc.reverse :: splitLinesAux rest []
  | 10 :: rest, acc => acc.reverse :: splitLinesAux rest []
  | c :: rest, acc => splitLinesAux rest (c :: acc)

def splitLines (t : List Nat) : List (List Nat) := splitLinesAux t []

/-- The JavaScript `\s` class (also used by `String.prototype.trim`). -/
def isJsSpace (c : Nat) : Bool :=
  decide (c = 9 ∨ c = 10 ∨ c = 11 ∨ c = 12 ∨ c = 13 ∨ c = 32 ∨ c = 0xa0 ∨
    c = 0x1680 ∨ (0x2000 ≤ c ∧ c ≤ 0x200a) ∨ c = 0x2028 ∨ c = 0x2029 ∨
    c = 0x202f ∨ c = 0x205f ∨ c = 0x3000 ∨ c = 0xfeff)

/-- `String.prototype.trim`. -/
def trimJs (s : List Nat) : List Nat :=
  ((s.dropWhile (fun c => isJsSpace c)).reverse.dropWhile
    (fun c => isJsSpace c)).reverse

def toLowerAscii (c : Nat) : Nat := if 65 ≤ c ∧ c ≤ 90 then c + 32 else c

def strPassword : List Nat := [112, 97, 115, 115, 119, 111, 114, 100]
def strPassphrase : List Nat :=
  [112, 97, 115, 115, 112, 104, 114, 97, 115, 101]
def strMima : List Nat := [0x5bc6, 0x7801]

def beginsWith (pre s : List Nat) : Bool := decide (s.take pre.length = pre)

/-- `passwordPromptRegex.test(line)`: the regex
`(password|passphrase|密码)\s*[:：]?\s*$` with the case-insensitive flag.
Reading from the end of the line: optional whitespace, an optional ASCII or
full-width colon, optional whitespace, then one of the three tokens (any
prefix before the token is allowed; the tokens contain neither whitespace
nor a colon, so this decomposition is exact). -/
def passwordPromptTest (line : List Nat) : Bool :=
  let r := (line.map toLowerAscii).reverse
  let r1 := r.dropWhile (fun c => isJsSpace c)
  let r2 :=
    match r1 with
    | c :: rest => if c = 0x3a ∨ c = 0xff1a then rest else c :: rest
    | [] => []
  let r3 := r2.dropWhile (fun c => isJsSpace c)
  beginsWith strPassword.reverse r3 || beginsWith strPassphrase.reverse r3 ||
    beginsWith strMima.reverse r3

/-- `checkForPasswordPrompt` from the source: does any trimmed line of the
text match the password-prompt pattern? -/
def hasPasswordPrompt (text : List Nat) : Bool :=
  (splitLines text).any (fun line => passwordPromptTest (trimJs line))

/-- The mask update `checkForPasswordPrompt` performs: set on a match,
otherwise unchanged. -/
def checkPasswordMask (mask : Bool) (text : List Nat) : Bool :=
  mask || hasPasswordPrompt text

/-! ### Session controller: inbound events and handlers -/

structure ConnEvent where
  ok : Bool
  message : Option (List Nat)
  deriving Repr, DecidableEq

structure OutputEvent where
  ok : Bool
  output : Option (List Nat)
  error_output : Option (List Nat)
  command : Option (List Nat)
  message : Option (List Nat)
  state : Option (List Nat)
  deriving Repr, DecidableEq

structure DisconnectEvent where
  message : Option (List Nat)
  deriving Repr, DecidableEq

structure ShellOutputEvent where
  output : Option (List Nat)
  isError : Option Bool
  deriving Repr, DecidableEq

structure ShellEvent where
  ok : Bool
  active : Option Bool
  message : Option (List Nat)
  deriving Repr, DecidableEq

def strStarted : List Nat := [115, 116, 97, 114, 116, 101, 100]
def strInputError : List Nat :=
  [105, 110, 112, 117, 116, 95, 101, 114, 114, 111, 114]
def strStream : List Nat := [115, 116, 114, 101, 97, 109]
def strFinished : List Nat := [102, 105, 110, 105, 115, 104, 101, 100]

/-- "连接超时，请检查网络或服务器状态后重试。" -/
def msgTimeout : List Nat :=
  [0x8fde, 0x63a5, 0x8d85, 0x65f6, 0xff0c, 0x8bf7, 0x68c0, 0x67e5, 0x7f51,
    0x7edc, 0x6216, 0x670d, 0x52a1, 0x5668, 0x72b6, 0x6001, 0x540e, 0x91cd,
    0x8bd5, 0x3002]

/-- "(输入已隐藏)" -/
def msgMaskedInput : List Nat :=
  [0x28, 0x8f93, 0x5165, 0x5df2, 0x9690, 0x85cf, 0x29]

/-- "(发送空行)" -/
def msgEmptyLine : List Nat := [0x28, 0x53d1, 0x9001, 0x7a7a, 0x884c, 0x29]

/-- "请输入主机地址和用户名以建立 SSH 连接。" -/
def msgMissingHostUser : List Nat :=
  [0x8bf7, 0x8f93, 0x5165, 0x4e3b, 0x673a, 0x5730, 0x5740, 0x548c, 0x7528,
    0x6237, 0x540d, 0x4ee5, 0x5efa, 0x7acb, 0x20, 0x53, 0x53, 0x48, 0x20,
    0x8fde, 0x63a5, 0x3002]

/-- "正在连接到 username@host:port..." -/
def msgConnectingTo (u h : List Nat) (p : Nat) : List Nat :=
  [0x6b63, 0x5728, 0x8fde, 0x63a5, 0x5230, 0x20] ++ u ++ [0x40] ++ h ++
    [0x3a] ++ ((Nat.toDigits 10 p).map Char.toNat) ++ [0x2e, 0x2e, 0x2e]

/-- Append one message request to the transcript in the state. -/
def appendMsgS (s : CState) (m : MsgReq) : CState :=
  { s with
    messages := (appendMessage s.messages s.nextMessageId m).1,
    nextMessageId := (appendMessage s.messages s.nextMessageId m).2 }

/-- Append a sanitized optional message, skipping `null`. -/
def appendIf (s : CState) (o : Option (List Nat)) (isErr : Option Bool) :
    CState :=
  match o with
  | none => s
  | some c => appendMsgS s ⟨Role.server, c, isErr⟩

/-- `handleConnection` from the source. -/
def handleConnection (d : ConnEvent) (s : CState) : CState :=
  let s1 := { s with
    connectionState :=
      if d.ok then ConnState.connected else ConnState.disconnected,
    isShellToggling := false }
  let s2 :=
    if d.ok then
      { s1 with
        isShellActive := false, isCommandRunning := false,
        shouldMaskNextInput := false,
        form := { s1.form with password := [] },
        commandSan := ⟨[], [], 0⟩, shellSan := ⟨[], [], 0⟩ }
    else
      { s1 with
        isCommandRunning := false, shouldMaskNextInput := false,
        commandSan := ⟨[], [], 0⟩, shellSan := ⟨[], [], 0⟩ }
  appendIf s2 (sanitizeEphemeral d.message) (some (!d.ok))

/-- `handleOutput` from the source. -/
def handleOutput (d : OutputEvent) (s : CState) : CState :=
  if d.state = some strStarted then
    let s1 := { s with
      isCommandRunning := true, shouldMaskNextInput := false,
      commandSan := ⟨[], [], 0⟩ }
    appendIf s1 (sanitizeEphemeral d.message) (some (!d.ok))
  else if d.state = some strInputError then
    let s1 := { s with
      isCommandRunning := false, shouldMaskNextInput := false }
    appendIf s1 (sanitizeEphemeral d.message) (some true)
  else
    let s1 :=
      if jsTruthy d.state = false ∧ jsTruthy d.command = true then
        appendMsgS s ⟨Role.user, d.command.getD [], none⟩
      else s
    let s2 :=
      if d.state ≠ some strStream then
        match sanitizeEphemeral d.message with
        | some c =>
          let sa := appendMsgS s1 ⟨Role.server, c, some (!d.ok)⟩
          { sa with
            shouldMaskNextInput := checkPasswordMask sa.shouldMaskNextInput c }
        | none => s1
      else s1
    let s3 := { s2 with
      commandSan := (prepareDisplayContent d.output s2.commandSan).2 }
    let s4 :=
      match (prepareDisplayContent d.output s2.commandSan).1 with
      | some c =>
        let sa := appendMsgS s3 ⟨Role.server, c, none⟩
        { sa with
          shouldMaskNextInput := checkPasswordMask sa.shouldMaskNextInput c }
      | none => s3
    let s5 := { s4 with
      commandSan := (prepareDisplayContent d.error_output s4.commandSan).2 }
    let s6 :=
      match (prepareDisplayContent d.error_output s4.commandSan).1 with
      | some c =>
        let sa := appendMsgS s5 ⟨Role.server, c, some true⟩
        { sa with
          shouldMaskNextInput := checkPasswordMask sa.shouldMaskNextInput c }
      | none => s5
    if d.state = some strFinished ∨
        (jsTruthy d.state = false ∧ jsTruthy d.message = true) then
      { s6 with isCommandRunning := false, shouldMaskNextInput := false }
    else s6

/-- `handleDisconnect` from the source. -/
def handleDisconnect (d : DisconnectEvent) (s : CState) : CState :=
  let s1 := { s with
    connectionState := ConnState.disconnected,
    isCommandRunning := false, isShellActive := false,
    isShellToggling := false, shouldMaskNextInput := false }
  appendIf s1 (sanitizeEphemeral d.message) (some true)

/-- `handleShellOutput` from the source: the shell-channel sanitizer state
is threaded (mutated) even when nothing is displayed. -/
def handleShellOutput (d : ShellOutputEvent) (s : CState) : CState :=
  let s1 := { s with
    shellSan := (prepareDisplayContent d.output s.shellSan).2 }
  match (prepareDisplayContent d.output s.shellSan).1 with
  | none => s1
  | some c =>
    let s2 := { s1 with
      shouldMaskNextInput := checkPasswordMask s1.shouldMaskNextInput c }
    appendMsgS s2 ⟨Role.server, c, d.isError⟩

/-- `handleShellEvent` from the source. -/
def handleShellEvent (d : ShellEvent) (s : CState) : CState :=
  let s1 :=
    match d.active with
    | some a =>
      if a then { s with isShellActive := true, shellSan := ⟨[], [], 0⟩ }
      else { s with isShellActive := false, shouldMaskNextInput := false }
    | none =>
      if !d.ok then
        { s with isShellActive := false, shouldMaskNextInput := false }
      else s
  let s2 := { s1 with isShellToggling := false }
  appendIf s2 (sanitizeEphemeral d.message) (some (!d.ok))

/-! ### Session controller: user actions and the watchdog -/

inductive Effect
  | sshConnect (host : List Nat) (port : Nat) (username password : List Nat)
  | sshDisconnect
  | sshCommand (command : List Nat)
  | sshCommandInput (data : List Nat)
  | sshShellInput (data : List Nat)
  | sshShellStart
  | sshShellStop
  deriving Repr, DecidableEq

/-- `submitConnection` from the source: guarded against a missing socket and
against double submission while connecting; empty host or username is a
local validation error that never reaches the transport. -/
def submitConnection (s : CState) : CState × List Effect :=
  if s.hasSocket = false ∨ s.connectionState = ConnState.connecting then
    (s, [])
  else if s.form.host = [] ∨ s.form.username = [] then
    (appendMsgS s ⟨Role.server, msgMissingHostUser, some true⟩, [])
  else
    let s1 := { s with connectionState := ConnState.connecting }
    let s2 := appendMsgS s1
      ⟨Role.server, msgConnectingTo s.form.username s.form.host s.form.port,
        none⟩
    (s2, [Effect.sshConnect s.form.host s.form.port s.form.username
      s.form.password])

/-- The `disconnect` click handler from the source. -/
def disconnectAction (s : CState) : CState × List Effect :=
  if s.hasSocket = false then (s, [])
  else ({ s with commandSan := ⟨[], [], 0⟩, shellSan := ⟨[], [], 0⟩ },
    [Effect.sshDisconnect])

/-- `prev.length && prev[prev.length-1] === command ? prev : [...prev, command]`. -/
def pushHistory (h : List (List Nat)) (cmd : List Nat) : List (List Nat) :=
  if h ≠ [] ∧ h.getLast? = some cmd then h else h ++ [cmd]

/-- `submitCommand` from the source: shell input, mid-command stdin, or a
new one-shot command. -/
def submitCommand (s : CState) : CState × List Effect :=
  if s.hasSocket = false ∨ s.connectionState ≠ ConnState.connected then
    (s, [])
  else if s.isShellActive then
    let dataToSend := s.command ++ [10]
    let s1 := { s with command := [], historyIndex := none }
    let s2 :=
      if s.command ≠ [] ∧ s.shouldMaskNextInput = false then
        { s1 with commandHistory := pushHistory s1.commandHistory s.command }
      else s1
    let s3 :=
      if s.command ≠ [] then
        if s.shouldMaskNextInput then
          { (appendMsgS s2 ⟨Role.user, msgMaskedInput, none⟩) with
            shouldMaskNextInput := false }
        else appendMsgS s2 ⟨Role.user, s.command, none⟩
      else
        let sa := appendMsgS s2 ⟨Role.user, msgEmptyLine, none⟩
        if s.shouldMaskNextInput then { sa with shouldMaskNextInput := false }
        else sa
    (s3, [Effect.sshShellInput dataToSend])
  else if s.isCommandRunning then
    let dataToSend := s.command ++ [10]
    let s1 := { s with command := [], historyIndex := none }
    let s2 :=
      if s.command ≠ [] then
        if s.shouldMaskNextInput then
          appendMsgS s1 ⟨Role.user, msgMaskedInput, none⟩
        else
          { (appendMsgS s1 ⟨Role.user, s.command, none⟩) with
            commandHistory := pushHistory s1.commandHistory s.command }
      else appendMsgS s1 ⟨Role.user, msgEmptyLine, none⟩
    let s3 :=
      if s.shouldMaskNextInput then { s2 with shouldMaskNextInput := false }
      else s2
    (s3, [Effect.sshCommandInput dataToSend])
  else if trimJs s.command = [] then (s, [])
  else
    let trimmed := trimJs s.command
    let s1 := { s with
      command := [], shouldMaskNextInput := false,
      commandHistory := pushHistory s.commandHistory trimmed,
      historyIndex := none }
    let s2 := appendMsgS s1 ⟨Role.user, trimmed, none⟩
    let s3 := { s2 with isCommandRunning := true }
    (s3, [Effect.sshCommand trimmed])

/-- The watchdog delay of the connect effect (`15000` ms in the source). -/
def watchdogDelayMs : Nat := 15000

/-- The React effect on `connectionState`: while `connecting` a timeout is
armed; leaving `connecting` runs the cleanup, which clears it. -/
def watchdogSync (s : CState) : CState :=
  if s.connectionState = ConnState.connecting then
    { s with timer := some watchdogDelayMs }
  else { s with timer := none }

/-- Firing of an armed watchdog (the `setTimeout` callback): only possible
while armed; if the state is still `connecting` it forces `disconnected`,
appends the timeout error message and clears `commandRunning`; the
subsequent re-render runs the effect again. -/
def fireWatchdog (s : CState) : Option CState :=
  match s.timer with
  | none => none
  | some _ =>
    if s.connectionState = ConnState.connecting then
      some (watchdogSync
        { (appendMsgS { s with connectionState := ConnState.disconnected }
            ⟨Role.server, msgTimeout, some true⟩) with
          isCommandRunning := false, timer := none })
    else some (watchdogSync { s with timer := none })

inductive InEvent
  | connectionResult (d : ConnEvent)
  | output (d : OutputEvent)
  | disconnected (d : DisconnectEvent)
  | shellOutput (d : ShellOutputEvent)
  | shellEvent (d : ShellEvent)
  | submitConnect
  | submitCmd
  | userDisconnect
  deriving Repr, DecidableEq

def dispatch (s : CState) (e : InEvent) : CState × List Effect :=
  match e with
  | .connectionResult d => (handleConnection d s, [])
  | .output d => (handleOutput d s, [])
  | .disconnected d => (handleDisconnect d s, [])
  | .shellOutput d => (handleShellOutput d s, [])
  | .shellEvent d => (handleShellEvent d s, [])
  | .submitConnect => submitConnection s
  | .submitCmd => submitCommand s
  | .userDisconnect => disconnectAction s

/-- One controller step: the handler or action, followed by the re-render
effect that keeps the watchdog in sync with `connectionState`. -/
def stepEvent (s : CState) (e : InEvent) : CState × List Effect :=
  ((watchdogSync (dispatch s e).1), (dispatch s e).2)

/-- The component's initial state (with an available socket). -/
def initCState : CState :=
  { hasSocket := true, connectionState := ConnState.disconnected,
    messages := [], nextMessageId := 1, isCommandRunning := false,
    isShellActive := false, isShellToggling := false,
    shouldMaskNextInput := false, commandSan := ⟨[], [], 0⟩,
    shellSan := ⟨[], [], 0⟩, form := ⟨[], 22, [], []⟩, command := [],
    commandHistory := [], historyIndex := none, timer := none }

/-- Every record in the transcript after an append is either an old record
or carries the coerced error flag of the request (a merged record keeps the
old record's flag, which the merge condition forces to coincide). -/
theorem appendMessage_mem {msgs : List Msg} {nid : Nat} {req : MsgReq}
    {m : Msg} (h : m ∈ (appendMessage msgs nid req).1) :
    m ∈ msgs ∨ m.isError.getD false = req.isError.getD false := by
  rw [appendMessage] at h
  cases hLast : msgs.getLast? with
  | none =>
    rw [hLast] at h
    dsimp only at h
    rcases List.mem_append.mp h with h | h
    · exact Or.inl h
    · simp at h
      subst h
      exact Or.inr rfl
  | some lm =>
    rw [hLast] at h
    dsimp only at h
    split at h
    · rename_i hcond
      dsimp only at h
      rcases List.mem_append.mp h with h | h
      · exact Or.inl (List.dropLast_subset _ h)
      · simp at h
        subst h
        exact Or.inr hcond.2.2
    · dsimp only at h
      rcases List.mem_append.mp h with h | h
      · exact Or.inl h
      · simp at h
        subst h
        exact Or.inr rfl

/-! ### Claim C4 -/

/-- Claim C4: appending a server message whose coerced `isError` equals that
of the last record merges when the last record is a server record — the
last record is replaced by one with the concatenated content, separated by
a single newline unless the old content ends with one or the new content
begins with one, and no id is consumed — while in every other case (user
request, differing coerced `isError`, last record not a server record, or
empty transcript) a fresh record is appended; in particular a server error
message following a server non-error message does not merge. -/
theorem append_message_spec (msgs : List Msg) (nid : Nat)
    (content : List Nat) (isErr : Option Bool) :
    (∀ lm, msgs.getLast? = some lm → lm.role = Role.server →
      lm.isError.getD false = isErr.getD false →
      appendMessage msgs nid ⟨Role.server, content, isErr⟩ =
        (msgs.dropLast ++
          [{ lm with content := mergedContent lm.content content }], nid)) ∧
    (∀ lm, msgs.getLast? = some lm →
      (lm.role ≠ Role.server ∨ lm.isError.getD false ≠ isErr.getD false) →
      appendMessage msgs nid ⟨Role.server, content, isErr⟩ =
        (msgs ++ [⟨nid, Role.server, content, isErr⟩], nid + 1)) ∧
    (∀ (c2 : List Nat) (ie : Option Bool),
      appendMessage msgs nid ⟨Role.user, c2, ie⟩ =
        (msgs ++ [⟨nid, Role.user, c2, ie⟩], nid + 1)) ∧
    (msgs = [] → appendMessage msgs nid ⟨Role.server, content, isErr⟩ =
      ([⟨nid, Role.server, content, isErr⟩], nid + 1)) := by
  refine ⟨?_, ?_, ?_, ?_⟩
  · intro lm hLast hrole herr
    rw [appendMessage, hLast]
    dsimp only
    rw [if_pos ⟨rfl, hrole, herr⟩]
  · intro lm hLast hne
    have hcon : ¬ (Role.server = Role.server ∧ lm.role = Role.server ∧
        lm.isError.getD false = isErr.getD false) := by
      intro hcond
      rcases hne with hne | hne
      · exact hne hcond.2.1
      · exact hne hcond.2.2
    rw [appendMessage, hLast]
    dsimp only
    rw [if_neg hcon]
  · intro c2 ie
    rw [appendMessage]
    cases hLast : msgs.getLast? with
    | none => rfl
    | some lm =>
      dsimp only
      rw [if_neg (show ¬ (Role.user = Role.server ∧ lm.role = Role.user ∧
        lm.isError.getD false = ie.getD false) by simp)]
  · intro hnil
    subst hnil
    rfl

/-- Claim C4, witness: a second non-error server message merges (with a
newline separator) into the previous one; a server error message following
it is appended as a new record instead. -/
theorem append_message_spec_witness :
    ([⟨1, Role.server, [97], none⟩] : List Msg).getLast? =
      some ⟨1, Role.server, [97], none⟩ ∧
    appendMessage [⟨1, Role.server, [97], none⟩] 2
        ⟨Role.server, [98], none⟩ =
      ([⟨1, Role.server, [97, 10, 98], none⟩], 2) ∧
    appendMessage [⟨1, Role.server, [97], none⟩] 2
        ⟨Role.server, [99], some true⟩ =
      ([⟨1, Role.server, [97], none⟩, ⟨2, Role.server, [99], some true⟩], 3) :=
  ⟨by decide,
    by
      have h := (append_message_spec [⟨1, Role.server, [97], none⟩] 2 [98]
        none).1 ⟨1, Role.server, [97], none⟩ (by decide) rfl rfl
      rw [h]
      decide,
    by
      have h := (append_message_spec [⟨1, Role.server, [97], none⟩] 2 [99]
        (some true)).2.1 ⟨1, Role.server, [97], none⟩ (by decide)
        (Or.inr (by decide))
      rw [h]
      decide⟩

/-! ### Claim C8 -/

/-- Claim C8: with a socket available and not already connecting, a connect
request with an empty host or username performs exactly one transcript
append — a server message with the fixed validation text and
`isError = true` — emits no outbound command, and leaves the connection
state (and every other control flag) unchanged; a connect request while
`connecting` is a complete no-op. -/
theorem connect_validation (s : CState) :
    (s.hasSocket = true → s.connectionState ≠ ConnState.connecting →
      (s.form.host = [] ∨ s.form.username = []) →
      submitConnection s =
        ({ s with
            messages := (appendMessage s.messages s.nextMessageId
              ⟨Role.server, msgMissingHostUser, some true⟩).1,
            nextMessageId := (appendMessage s.messages s.nextMessageId
              ⟨Role.server, msgMissingHostUser, some true⟩).2 }, []) ∧
      (submitConnection s).1.connectionState = s.connectionState ∧
      (submitConnection s).2 = []) ∧
    (s.connectionState = ConnState.connecting →
      submitConnection s = (s, [])) := by
  constructor
  · intro hsock hconn hempty
    have hguard : ¬ (s.hasSocket = false ∨
        s.connectionState = ConnState.connecting) := by
      intro hc
      rcases hc with hc | hc
      · rw [hsock] at hc
        exact absurd hc (by simp)
      · exact hconn hc
    have heq : submitConnection s =
        ({ s with
            messages := (appendMessage s.messages s.nextMessageId
              ⟨Role.server, msgMissingHostUser, some true⟩).1,
            nextMessageId := (appendMessage s.messages s.nextMessageId
              ⟨Role.server, msgMissingHostUser, some true⟩).2 }, []) := by
      rw [submitConnection, if_neg hguard, if_pos hempty]
      rfl
    refine ⟨heq, ?_, ?_⟩
    · rw [heq]
    · rw [heq]
  · intro hconn
    rw [submitConnection, if_pos (Or.inr hconn)]

/-- Claim C8, witness: an initial-state connect request (empty host) is
rejected locally with a single error message and no outbound command. -/
theorem connect_validation_witness :
    initCState.hasSocket = true ∧
    initCState.connectionState ≠ ConnState.connecting ∧
    initCState.form.host = [] ∧
    submitConnection initCState =
      ({ initCState with
          messages := (appendMessage initCState.messages
            initCState.nextMessageId
            ⟨Role.server, msgMissingHostUser, some true⟩).1,
          nextMessageId := (appendMessage initCState.messages
            initCState.nextMessageId
            ⟨Role.server, msgMissingHostUser, some true⟩).2 }, []) :=
  ⟨by decide, by decide, by decide,
    ((connect_validation initCState).1 (by decide) (by decide)
      (Or.inl (by decide))).1⟩

/-! ### Claim C5 -/

/-- Claim C5: (1) after any controller step the watchdog is armed — with
the 15000 ms delay — exactly when the session is in the `connecting`
state, so entering `connecting` starts it and leaving `connecting` cancels
it; (2) if an armed watchdog fires while still `connecting`, the state is
forced to `disconnected`, the timeout error message (`isError = true`) is
appended, `commandRunning` is cleared and the timer is gone; (3) after a
successful `connection_result` the state is `connected`, the watchdog is
disarmed and can never fire, so no timeout message can appear after a
successful connection. -/
theorem connect_watchdog (s : CState) (e : InEvent) :
    ((stepEvent s e).1.timer =
      if (stepEvent s e).1.connectionState = ConnState.connecting then
        some watchdogDelayMs
      else none) ∧
    watchdogDelayMs = 15000 ∧
    (s.timer ≠ none → s.connectionState = ConnState.connecting →
      ∃ s', fireWatchdog s = some s' ∧
        s'.connectionState = ConnState.disconnected ∧
        s'.messages = (appendMessage s.messages s.nextMessageId
          ⟨Role.server, msgTimeout, some true⟩).1 ∧
        s'.isCommandRunning = false ∧ s'.timer = none) ∧
    (∀ d : ConnEvent, d.ok = true →
      (stepEvent s (InEvent.connectionResult d)).1.connectionState =
        ConnState.connected ∧
      (stepEvent s (InEvent.connectionResult d)).1.timer = none ∧
      fireWatchdog (stepEvent s (InEvent.connectionResult d)).1 = none) := by
  have hsync : ∀ u : CState, (watchdogSync u).connectionState =
      u.connectionState := by
    intro u
    rw [watchdogSync]
    split <;> rfl
  have hsyncTimer : ∀ u : CState, (watchdogSync u).timer =
      (if (watchdogSync u).connectionState = ConnState.connecting then
        some watchdogDelayMs else none) := by
    intro u
    rw [watchdogSync]
    by_cases hu : u.connectionState = ConnState.connecting
    · rw [if_pos hu]
      show some watchdogDelayMs = _
      rw [if_pos hu]
    · rw [if_neg hu]
      show (none : Option Nat) = _
      rw [if_neg hu]
  have happendConn : ∀ (u : CState) (o : Option (List Nat)) (ie : Option Bool),
      (appendIf u o ie).connectionState = u.connectionState ∧
      (appendIf u o ie).timer = u.timer := by
    intro u o ie
    cases o with
    | none => exact ⟨rfl, rfl⟩
    | some c => exact ⟨rfl, rfl⟩
  refine ⟨hsyncTimer _, rfl, ?_, ?_⟩
  · intro htimer hconn
    cases ht : s.timer with
    | none => exact absurd ht htimer
    | some t =>
      rw [fireWatchdog, ht]
      dsimp only
      rw [if_pos hconn]
      exact ⟨_, rfl, rfl, rfl, rfl, rfl⟩
  · intro d hok
    have hconnAfter : (handleConnection d s).connectionState =
        ConnState.connected := by
      rw [handleConnection]
      dsimp only
      rw [(happendConn _ _ _).1]
      rw [hok]
      rfl
    have h1 : (stepEvent s (InEvent.connectionResult d)).1.connectionState =
        ConnState.connected := by
      show (watchdogSync (handleConnection d s)).connectionState = _
      rw [hsync, hconnAfter]
    have h2 : (stepEvent s (InEvent.connectionResult d)).1.timer = none := by
      show (watchdogSync (handleConnection d s)).timer = none
      rw [hsyncTimer, hsync, hconnAfter]
      rw [if_neg (by simp)]
    refine ⟨h1, h2, ?_⟩
    rw [fireWatchdog, h2]

/-- Claim C5, witness: from a connecting state with an armed watchdog, the
timeout fires into `disconnected` with the error message; and after a
successful connection result the watchdog is disarmed and cannot fire. -/
theorem connect_watchdog_witness :
    (let s := { initCState with
      connectionState := ConnState.connecting, timer := some 15000 }
     s.timer ≠ none ∧ s.connectionState = ConnState.connecting ∧
     ∃ s', fireWatchdog s = some s' ∧
       s'.connectionState = ConnState.disconnected ∧
       s'.messages = (appendMessage s.messages s.nextMessageId
         ⟨Role.server, msgTimeout, some true⟩).1 ∧
       s'.isCommandRunning = false ∧ s'.timer = none) ∧
    (stepEvent { initCState with
        connectionState := ConnState.connecting, timer := some 15000 }
      (InEvent.connectionResult ⟨true, none⟩)).1.connectionState =
        ConnState.connected ∧
    fireWatchdog (stepEvent { initCState with
        connectionState := ConnState.connecting, timer := some 15000 }
      (InEvent.connectionResult ⟨true, none⟩)).1 = none :=
  ⟨⟨by decide, by decide,
      (connect_watchdog { initCState with
        connectionState := ConnState.connecting, timer := some 15000 }
        InEvent.submitConnect).2.2.1 (by decide) (by decide)⟩,
    ((connect_watchdog { initCState with
        connectionState := ConnState.connecting, timer := some 15000 }
        InEvent.submitConnect).2.2.2 ⟨true, none⟩ rfl).1,
    ((connect_watchdog { initCState with
        connectionState := ConnState.connecting, timer := some 15000 }
        InEvent.submitConnect).2.2.2 ⟨true, none⟩ rfl).2.2⟩

/-- C10: stream output error labeling in `handleOutput`.  (1) The `ok` flag
influences only messages built from the `message` field: when `message` is
absent, `handleOutput` is insensitive to `ok`.  (2) When `message`,
`command` and `error_output` are all absent, every message of the
resulting state is an old message or carries a falsy `isError` — so
`output`-derived messages are appended with `isError` unset.  (3) When
`message`, `command` and `output` are all absent, every message of the
resulting state is an old message or carries `isError = true` — so
`error_output`-derived messages are always labelled as errors. -/
theorem handle_output_error_labels (d : OutputEvent) (s : CState) :
    (d.message = none →
      handleOutput { d with ok := true } s =
        handleOutput { d with ok := false } s) ∧
    (d.message = none → d.command = none → d.error_output = none →
      ∀ m ∈ (handleOutput d s).messages,
        m ∈ s.messages ∨ m.isError.getD false = false) ∧
    (d.message = none → d.command = none → d.output = none →
      ∀ m ∈ (handleOutput d s).messages,
        m ∈ s.messages ∨ m.isError.getD false = true) := by
  obtain ⟨ok, output, error_output, command, message, state⟩ := d
  have hse : sanitizeEphemeral none = none := rfl
  have hai : ∀ (t : CState) (e : Option Bool), appendIf t none e = t :=
    fun _ _ => rfl
  have hjt : jsTruthy (none : Option (List Nat)) = false := rfl
  have hft : (false = true) = False := by simp
  have hpn : ∀ t : TermSanState,
      prepareDisplayContent none t = (none, t) := fun _ => rfl
  refine ⟨?_, ?_, ?_⟩
  · intro hm
    dsimp only at hm
    subst hm
    unfold handleOutput
    dsimp only
    simp only [hse, hai]
  · intro hm hc he m hmem
    dsimp only at hm hc he
    subst hm; subst hc; subst he
    rw [handleOutput] at hmem
    dsimp only at hmem
    by_cases h1 : state = some strStarted
    · rw [if_pos h1] at hmem
      exact Or.inl hmem
    rw [if_neg h1] at hmem
    by_cases h2 : state = some strInputError
    · rw [if_pos h2] at hmem
      exact Or.inl hmem
    rw [if_neg h2] at hmem
    simp only [hse, hjt, hft, hpn, and_false, if_false, ite_self,
      or_false] at hmem
    by_cases hf : state = some strFinished
    · simp only [if_pos hf] at hmem
      cases hout : (prepareDisplayContent output s.commandSan).1 with
      | none =>
        simp only [hout] at hmem
        exact Or.inl hmem
      | some c =>
        simp only [hout] at hmem
        rcases appendMessage_mem hmem with h | h
        · exact Or.inl h
        · exact Or.inr h
    · simp only [if_neg hf] at hmem
      cases hout : (prepareDisplayContent output s.commandSan).1 with
      | none =>
        simp only [hout] at hmem
        exact Or.inl hmem
      | some c =>
        simp only [hout] at hmem
        rcases appendMessage_mem hmem with h | h
        · exact Or.inl h
        · exact Or.inr h
  · intro hm hc ho m hmem
    dsimp only at hm hc ho
    subst hm; subst hc; subst ho
    rw [handleOutput] at hmem
    dsimp only at hmem
    by_cases h1 : state = some strStarted
    · rw [if_pos h1] at hmem
      exact Or.inl hmem
    rw [if_neg h1] at hmem
    by_cases h2 : state = some strInputError
    · rw [if_pos h2] at hmem
      exact Or.inl hmem
    rw [if_neg h2] at hmem
    simp only [hse, hjt, hft, hpn, and_false, if_false, ite_self,
      or_false] at hmem
    by_cases hf : state = some strFinished
    · simp only [if_pos hf] at hmem
      cases herr : (prepareDisplayContent error_output s.commandSan).1 with
      | none =>
        simp only [herr] at hmem
        exact Or.inl hmem
      | some c =>
        simp only [herr] at hmem
        rcases appendMessage_mem hmem with h | h
        · exact Or.inl h
        · exact Or.inr h
    · simp only [if_neg hf] at hmem
      cases herr : (prepareDisplayContent error_output s.commandSan).1 with
      | none =>
        simp only [herr] at hmem
        exact Or.inl hmem
      | some c =>
        simp only [herr] at hmem
        rcases appendMessage_mem hmem with h | h
        · exact Or.inl h
        · exact Or.inr h

/-- Claim C10, witness: with no `message` field, flipping `ok` does not
change the handler result; an `output`-only event appends only
falsy-`isError` messages; an `error_output`-only event appends only
`isError = true` messages. -/
theorem handle_output_error_labels_witness :
    handleOutput ⟨true, some [104, 105, 10], none, none, none, none⟩
        initCState =
      handleOutput ⟨false, some [104, 105, 10], none, none, none, none⟩
        initCState ∧
    (∀ m ∈ (handleOutput ⟨true, some [104, 105, 10], none, none, none,
        none⟩ initCState).messages,
      m ∈ initCState.messages ∨ m.isError.getD false = false) ∧
    (∀ m ∈ (handleOutput ⟨true, none, some [101, 114, 114, 10], none,
        none, none⟩ initCState).messages,
      m ∈ initCState.messages ∨ m.isError.getD false = true) :=
  ⟨(handle_output_error_labels
      ⟨true, some [104, 105, 10], none, none, none, none⟩ initCState).1
      rfl,
    (handle_output_error_labels
      ⟨true, some [104, 105, 10], none, none, none, none⟩ initCState).2.1
      rfl rfl rfl,
    (handle_output_error_labels
      ⟨true, none, some [101, 114, 114, 10], none, none, none⟩
      initCState).2.2 rfl rfl rfl⟩

/-! ### Claim C3 -/

/-- The literal `"password:"` as UTF-16 code units. -/
def pwLine : List Nat := [112, 97, 115, 115, 119, 111, 114, 100, 58]

/-- A connected shell-mode state with the mask set and a pending command
(`"ls"`). -/
def maskWitState : CState :=
  { initCState with
    connectionState := ConnState.connected, isShellActive := true,
    shouldMaskNextInput := true, command := [108, 115] }

/-- Claim C3, counterexample: the claim fails as stated.  (1) A
`ssh_shell_event` carrying the text `"password:"` appends it as a server
message, yet `handleShellEvent` never scans for the prompt, so the mask
stays `false` even though the text matches the password pattern.  (2) The
mask does not stay set until the next user submission: a
`state = "started"` command event clears it with no submission. -/
theorem password_mask_cex :
    hasPasswordPrompt pwLine = true ∧
    (handleShellEvent ⟨true, none, some pwLine⟩ initCState).messages =
      initCState.messages ++ [⟨1, Role.server, pwLine, some false⟩] ∧
    (handleShellEvent ⟨true, none, some pwLine⟩
      initCState).shouldMaskNextInput = false ∧
    (handleOutput ⟨true, none, none, none, none, some strStarted⟩
      { initCState with shouldMaskNextInput := true
        }).shouldMaskNextInput = false := by
  decide

/-- Claim C3, amended: password-prompt masking is driven by the two
terminal output channels only.  (1) A shell-output display content that
matches the prompt pattern sets the mask; (2) so does the `output`
display content of a streaming command event; (3) a masked non-empty
shell submission is displayed as the `"(输入已隐藏)"` placeholder instead
of the literal text, clears the mask, and still sends the literal
command; (4) the same holds for input to a running command; (5)
`handleShellEvent` never sets the mask (it appends server text without
scanning it), and (6) `handleConnection` always leaves the mask
cleared. -/
theorem password_mask_amended (s : CState) :
    (∀ d : ShellOutputEvent, ∀ c,
      (prepareDisplayContent d.output s.shellSan).1 = some c →
      hasPasswordPrompt c = true →
      (handleShellOutput d s).shouldMaskNextInput = true) ∧
    (∀ d : OutputEvent, ∀ c,
      d.state = some strStream →
      (prepareDisplayContent d.output s.commandSan).1 = some c →
      hasPasswordPrompt c = true →
      (handleOutput d s).shouldMaskNextInput = true) ∧
    (s.hasSocket = true → s.connectionState = ConnState.connected →
      s.isShellActive = true → s.shouldMaskNextInput = true →
      s.command ≠ [] →
      (submitCommand s).1.messages =
        (appendMessage s.messages s.nextMessageId
          ⟨Role.user, msgMaskedInput, none⟩).1 ∧
      (submitCommand s).1.shouldMaskNextInput = false ∧
      (submitCommand s).2 = [Effect.sshShellInput (s.command ++ [10])]) ∧
    (s.hasSocket = true → s.connectionState = ConnState.connected →
      s.isShellActive = false → s.isCommandRunning = true →
      s.shouldMaskNextInput = true → s.command ≠ [] →
      (submitCommand s).1.messages =
        (appendMessage s.messages s.nextMessageId
          ⟨Role.user, msgMaskedInput, none⟩).1 ∧
      (submitCommand s).1.shouldMaskNextInput = false ∧
      (submitCommand s).2 =
        [Effect.sshCommandInput (s.command ++ [10])]) ∧
    (∀ d : ShellEvent,
      (handleShellEvent d s).shouldMaskNextInput = true →
      s.shouldMaskNextInput = true) ∧
    (∀ d : ConnEvent,
      (handleConnection d s).shouldMaskNextInput = false) := by
  have hmaskS : ∀ (t : CState) (m : MsgReq),
      (appendMsgS t m).shouldMaskNextInput = t.shouldMaskNextInput :=
    fun _ _ => rfl
  have hmaskIf : ∀ (t : CState) (o : Option (List Nat)) (e : Option Bool),
      (appendIf t o e).shouldMaskNextInput = t.shouldMaskNextInput := by
    intro t o e
    cases o <;> rfl
  refine ⟨?_, ?_, ?_, ?_, ?_, ?_⟩
  · intro d c hd hp
    obtain ⟨output, isErr⟩ := d
    dsimp only at hd
    rw [handleShellOutput]
    dsimp only
    simp only [hd]
    simp only [hmaskS, checkPasswordMask, hp, Bool.or_true]
  · intro d c hst hd hp
    obtain ⟨ok, output, error_output, command, message, state⟩ := d
    dsimp only at hst hd
    subst hst
    have hns : ¬ ((some strStream : Option (List Nat)) = some strStarted) :=
      by decide
    have hni : ¬ ((some strStream : Option (List Nat)) =
        some strInputError) := by decide
    have hjs : jsTruthy (some strStream) = true := rfl
    have htf : ((true : Bool) = false) = False := by simp
    have hsf : ((some strStream : Option (List Nat)) = some strFinished) =
        False := by simp [strStream, strFinished]
    rw [handleOutput]
    dsimp only
    rw [if_neg hns, if_neg hni]
    simp only [hjs, htf, hsf, ne_eq, eq_self_iff_true, not_true,
      false_and, and_false, or_false, if_false, ite_self]
    simp only [hd]
    split <;>
      simp only [hmaskS, checkPasswordMask, hp, Bool.or_true, Bool.true_or]
  · intro hsock hconn hsa hm hcmd
    have hguard : ¬ (s.hasSocket = false ∨
        s.connectionState ≠ ConnState.connected) := by
      intro hx
      rcases hx with hx | hx
      · rw [hsock] at hx
        exact Bool.noConfusion hx
      · exact hx hconn
    have heq : submitCommand s =
        ({ appendMsgS { s with command := [], historyIndex := none }
            ⟨Role.user, msgMaskedInput, none⟩ with
            shouldMaskNextInput := false },
          [Effect.sshShellInput (s.command ++ [10])]) := by
      rw [submitCommand, if_neg hguard, if_pos hsa]
      dsimp only
      rw [hm]
      rw [if_pos hcmd]
      rw [if_pos rfl]
      rw [if_neg (fun hx => Bool.noConfusion hx.2)]
    refine ⟨?_, ?_, ?_⟩
    · rw [heq]
      rfl
    · rw [heq]
    · rw [heq]
  · intro hsock hconn hsa hrun hm hcmd
    have hguard : ¬ (s.hasSocket = false ∨
        s.connectionState ≠ ConnState.connected) := by
      intro hx
      rcases hx with hx | hx
      · rw [hsock] at hx
        exact Bool.noConfusion hx
      · exact hx hconn
    have hnsh : ¬ (s.isShellActive = true) := by
      simp [hsa]
    have heq : submitCommand s =
        ({ appendMsgS { s with command := [], historyIndex := none }
            ⟨Role.user, msgMaskedInput, none⟩ with
            shouldMaskNextInput := false },
          [Effect.sshCommandInput (s.command ++ [10])]) := by
      rw [submitCommand, if_neg hguard, if_neg hnsh, if_pos hrun]
      dsimp only
      rw [hm]
      rw [if_pos hcmd]
      rw [if_pos rfl]
      rw [if_pos rfl]
    refine ⟨?_, ?_, ?_⟩
    · rw [heq]
      rfl
    · rw [heq]
    · rw [heq]
  · intro d h
    obtain ⟨ok, active, message⟩ := d
    rw [handleShellEvent] at h
    dsimp only at h
    rw [hmaskIf] at h
    dsimp only at h
    cases active with
    | some a =>
      cases a with
      | true => exact h
      | false => simp at h
    | none =>
      cases ok with
      | true => exact h
      | false => simp at h
  · intro d
    obtain ⟨ok, message⟩ := d
    rw [handleConnection]
    dsimp only
    rw [hmaskIf]
    cases ok <;> rfl

/-- Claim C3, witness: the `"password:"` line survives the sanitizer and
matches the prompt pattern; it sets the mask through the shell channel
and through a streaming command `output`; and a masked shell submission
from a connected state is displayed as the placeholder, clears the mask,
and sends the literal command. -/
theorem password_mask_amended_witness :
    (prepareDisplayContent (some pwLine) initCState.shellSan).1 =
      some pwLine ∧
    hasPasswordPrompt pwLine = true ∧
    (handleShellOutput ⟨some pwLine, none⟩
      initCState).shouldMaskNextInput = true ∧
    (handleOutput ⟨true, some pwLine, none, none, none, some strStream⟩
      initCState).shouldMaskNextInput = true ∧
    maskWitState.shouldMaskNextInput = true ∧
    maskWitState.command ≠ [] ∧
    (submitCommand maskWitState).1.messages =
      (appendMessage maskWitState.messages maskWitState.nextMessageId
        ⟨Role.user, msgMaskedInput, none⟩).1 ∧
    (submitCommand maskWitState).1.shouldMaskNextInput = false ∧
    (submitCommand maskWitState).2 =
      [Effect.sshShellInput (maskWitState.command ++ [10])] :=
  ⟨by decide, by decide,
    (password_mask_amended initCState).1 ⟨some pwLine, none⟩ pwLine
      (by decide) (by decide),
    (password_mask_amended initCState).2.1
      ⟨true, some pwLine, none, none, none, some strStream⟩ pwLine rfl
      (by decide) (by decide),
    by decide, by decide,
    ((password_mask_amended maskWitState).2.2.1 (by decide) (by decide)
      (by decide) (by decide) (by decide)).1,
    ((password_mask_amended maskWitState).2.2.1 (by decide) (by decide)
      (by decide) (by decide) (by decide)).2.1,
    ((password_mask_amended maskWitState).2.2.1 (by decide) (by decide)
      (by decide) (by decide) (by decide)).2.2⟩

end SshConsole
